import Mathlib

/-!
A verification development for the CATMAID datasource of this repository
(`src/neuroglancer/datasource/catmaid/frontend.ts` and `base.ts`).

The TypeScript is embedded shallowly:
* JavaScript `Map` objects become insertion-ordered association lists (`JsMap`);
* the JSON values handed to the metadata parsers become an inductive `Json` type;
* promise-returning code becomes `Except`-returning functions, with the network
  supplied as an explicit oracle (`Fetch`) and every transport request that the
  code issues recorded in a `FetchCall` log;
* JavaScript numbers become `Int` (integer-valued fields) or `ℚ` (the resolution
  vector and the derived voxel sizes, where the arithmetic performed by the code —
  multiplication by powers of two — is exact).

Collaborators that live outside the repository sources (the JSON verification
helpers, the completion utilities, and the memoized-future cache) are modelled
from the spec; each such definition carries a doc comment starting
`Modelled from the spec:`.
-/

namespace Catmaid

/-- A 3-vector with named `x`/`y`/`z` components, standing for `vec3` values. -/
structure Vec3 (α : Type) where
  x : α
  y : α
  z : α
deriving DecidableEq, Repr

/-- A JavaScript `Map` with string keys: an insertion-ordered association list.
`Map.prototype.set` overwrites an existing key in place (keeping its original
position) and appends a new key at the end. -/
structure JsMap (α : Type) where
  entries : List (String × α)
deriving DecidableEq, Repr

/-- `Map.prototype.get`: the value at the first (unique) matching key. -/
def JsMap.get {α : Type} (m : JsMap α) (k : String) : Option α :=
  (m.entries.find? (fun p => p.1 == k)).map Prod.snd

/-- Helper for `JsMap.set`: overwrite in place or append. -/
def JsMap.setEntries {α : Type} : List (String × α) → String → α → List (String × α)
  | [], k, v => [(k, v)]
  | (k0, v0) :: rest, k, v =>
    if k0 == k then (k, v) :: rest else (k0, v0) :: JsMap.setEntries rest k v

/-- `Map.prototype.set`. -/
def JsMap.set {α : Type} (m : JsMap α) (k : String) (v : α) : JsMap α :=
  ⟨JsMap.setEntries m.entries k v⟩

/-- `Map.prototype.values()`, in insertion order. -/
def JsMap.values {α : Type} (m : JsMap α) : List α :=
  m.entries.map Prod.snd

/-- `new Map()`. -/
def JsMap.empty {α : Type} : JsMap α := ⟨[]⟩

/-- `interface StackMirror` of `frontend.ts`. -/
structure StackMirror where
  id : Int
  title : String
  fileExtension : String
  tileHeight : Int
  tileWidth : Int
  tileSourceType : Int
  url : String
  position : Int
deriving DecidableEq, Repr

/-- `interface StackInfo` of `frontend.ts`. -/
structure StackInfo where
  dimension : Vec3 Int
  translation : Vec3 Int
  resolution : Vec3 ℚ
  zoomLevels : Int
  id : Int
  mirrors : JsMap StackMirror
deriving DecidableEq, Repr

/-- `interface StackIdentifier` of `frontend.ts`. -/
structure StackIdentifier where
  id : Int
  title : String
  comment : String
deriving DecidableEq, Repr

/-- `interface ProjectInfo` of `frontend.ts`. -/
structure ProjectInfo where
  id : Int
  title : String
  «stacks» : JsMap StackIdentifier
deriving DecidableEq, Repr

/-- The JSON values handed to the metadata parsers. -/
inductive Json where
  | null
  | bool (b : Bool)
  | num (v : ℚ)
  | str (s : String)
  | arr (elements : List Json)
  | obj (fields : List (String × Json))

/-- Modelled from the spec: `verifyInt` of `neuroglancer/util/json` (not among the
sources) accepts an integer-valued number and fails otherwise. -/
def verifyInt : Json → Except String Int
  | .num v => if v.den = 1 then .ok v.num else .error "Expected integer."
  | _ => .error "Expected integer."

/-- Modelled from the spec: `verifyFloat` of `neuroglancer/util/json` accepts any
number. -/
def verifyFloat : Json → Except String ℚ
  | .num v => .ok v
  | _ => .error "Expected floating-point number."

/-- Modelled from the spec: `verifyString` of `neuroglancer/util/json`. -/
def verifyString : Json → Except String String
  | .str s => .ok s
  | _ => .error "Expected string."

/-- Modelled from the spec: `verifyObject` of `neuroglancer/util/json`. -/
def verifyObject : Json → Except String Json
  | .obj fields => .ok (.obj fields)
  | _ => .error "Expected JSON object."

/-- First binding of a JSON object field list. -/
def lookupJsonField : List (String × Json) → String → Option Json
  | [], _ => none
  | (k, v) :: rest, name => if k == name then some v else lookupJsonField rest name

/-- Modelled from the spec: `verifyObjectProperty` of `neuroglancer/util/json`
applies the given verifier to the named property; a missing property (the
verifier sees `undefined`) fails. -/
def verifyObjectProperty {α : Type} (j : Json) (name : String)
    (f : Json → Except String α) : Except String α :=
  match j with
  | .obj fields =>
    match lookupJsonField fields name with
    | some v => f v
    | none => .error ("Missing property " ++ name ++ ".")
  | _ => .error "Expected JSON object."

/-- Modelled from the spec: `parseArray` of `neuroglancer/util/json` maps a
verifier over the elements of a JSON array, failing on a non-array. -/
def parseArray {α : Type} (j : Json) (f : Json → Except String α) :
    Except String (List α) :=
  match j with
  | .arr xs => xs.mapM f
  | _ => .error "Expected array."

/-- `parseStackMirror` of `frontend.ts`. -/
def parseStackMirror (obj : Json) : Except String StackMirror := do
  let id ← verifyObjectProperty obj "id" verifyInt
  let title ← verifyObjectProperty obj "title" verifyString
  let fileExtension ← verifyObjectProperty obj "file_extension" verifyString
  let tileHeight ← verifyObjectProperty obj "tile_height" verifyInt
  let tileWidth ← verifyObjectProperty obj "tile_width" verifyInt
  let tileSourceType ← verifyObjectProperty obj "tile_source_type" verifyInt
  let url ← verifyObjectProperty obj "image_base" verifyString
  let position ← verifyObjectProperty obj "position" verifyInt
  return { id := id, title := title, fileExtension := fileExtension,
           tileHeight := tileHeight, tileWidth := tileWidth,
           tileSourceType := tileSourceType, url := url, position := position }

/-- The `verifyObjectVec` helper nested inside `parseStackInfo`. -/
def verifyObjectVec {α : Type} (obj : Json) (vecField : String)
    (typeVerifier : Json → Except String α) : Except String (Vec3 α) :=
  verifyObjectProperty obj vecField (fun vecObj => do
    let x ← verifyObjectProperty vecObj "x" typeVerifier
    let y ← verifyObjectProperty vecObj "y" typeVerifier
    let z ← verifyObjectProperty vecObj "z" typeVerifier
    return ⟨x, y, z⟩)

/-- `parseStackInfo` of `frontend.ts`: the mirrors array is reduced into a map
keyed by the stringified mirror id. -/
def parseStackInfo (obj : Json) : Except String StackInfo := do
  let _ ← verifyObject obj
  let dimension ← verifyObjectVec obj "dimension" verifyInt
  let translation ← verifyObjectVec obj "translation" verifyInt
  let resolution ← verifyObjectVec obj "resolution" verifyFloat
  let zoomLevels ← verifyObjectProperty obj "num_zoom_levels" verifyInt
  let id ← verifyObjectProperty obj "sid" verifyInt
  let mirrorList ← verifyObjectProperty obj "mirrors" (fun mirrorsArrObj =>
    parseArray mirrorsArrObj parseStackMirror)
  let mirrors := mirrorList.foldl (fun ms m => ms.set (toString m.id) m) JsMap.empty
  return { dimension := dimension, translation := translation,
           resolution := resolution, zoomLevels := zoomLevels, id := id,
           mirrors := mirrors }

/-- `parseProjectsList` of `frontend.ts`. -/
def parseProjectsList (obj : Json) : Except String (JsMap ProjectInfo) := do
  let projectObjs ← parseArray obj verifyObject
  if projectObjs.length < 1 then
    throw "No projects found in projects list."
  let mut projects : JsMap ProjectInfo := JsMap.empty
  for projectObj in projectObjs do
    let id ← verifyObjectProperty projectObj "id" verifyInt
    let title ← verifyObjectProperty projectObj "title" verifyString
    let stackInfoArr ← verifyObjectProperty projectObj "stacks" (fun x =>
      parseArray x (fun stackDescObj => do
        let id ← verifyObjectProperty stackDescObj "id" verifyInt
        let title ← verifyObjectProperty stackDescObj "title" verifyString
        let comment ← verifyObjectProperty stackDescObj "comment" verifyString
        return ({ id := id, title := title, comment := comment } : StackIdentifier)))
    let «stacks» := stackInfoArr.foldl
      (fun (m : JsMap StackIdentifier) s => m.set (toString s.id) s) JsMap.empty
    projects := projects.set (toString id) { id := id, title := title, «stacks» := «stacks» }
  return projects

/-! ### String helpers

JavaScript string operations used by the datasource, written as structural
recursion over the character list so that the kernel can evaluate them. -/

/-- `string.split('/')` on the character list: JS `String.prototype.split` with a
one-character separator. The result is never empty (`''.split('/')` is `['']`). -/
def splitOnSlash : List Char → List (List Char)
  | [] => [[]]
  | c :: cs =>
    match splitOnSlash cs with
    | [] => [[c]]
    | s :: ss => if c == '/' then [] :: s :: ss else (c :: s) :: ss

/-- `array.join('/')`: JS `Array.prototype.join` with separator `'/'`. -/
def joinSlash : List String → String
  | [] => ""
  | [s] => s
  | s :: rest => s ++ "/" ++ joinSlash rest

/-- `path.split('/')` as a list of strings. -/
def jsSplit (s : String) : List String :=
  (splitOnSlash s.toList).map (fun l => ⟨l⟩)

/-- Whether the first list is a prefix of the second (JS `startsWith`), as a
kernel-reducible Boolean. -/
def isPrefixOfChars : List Char → List Char → Bool
  | [], _ => true
  | _ :: _, [] => false
  | p :: ps, c :: cs => p == c && isPrefixOfChars ps cs

/-- JS `String.prototype.startsWith`. -/
def jsStartsWith (s pat : String) : Bool :=
  isPrefixOfChars pat.toList s.toList

/-- The digit value of a decimal digit character. -/
def decDigit? (c : Char) : Option Nat :=
  if '0' ≤ c ∧ c ≤ '9' then some (c.toNat - 48) else none

/-- The natural number denoted by a non-empty list of decimal digits. -/
def natOfDigits (l : List Char) : Option Nat :=
  match l with
  | [] => none
  | _ =>
    l.foldl (fun acc c => acc.bind (fun a => (decDigit? c).map (fun d => a * 10 + d)))
      (some 0)

/-- Modelled from the spec: the JavaScript `Number(string)` conversion, as applied
by the datasource to the project and stack id segments of a path. A decimal
integer literal (optionally negative) maps to its value, the empty string to `0`
(a JS quirk), and anything else to `none`, which stands for `NaN`. The remaining
JS numeric grammar (floats, whitespace, hex) is irrelevant here: no claim under
verification depends on the converted value. -/
def jsNumber (s : String) : Option Int :=
  match s.toList with
  | [] => some 0
  | '-' :: ds => (natOfDigits ds).map (fun n => -(n : Int))
  | ds => (natOfDigits ds).map (fun n => (n : Int))

/-! ### Completion utilities -/

/-- One completion as produced by the completion utility: the matched key and its
human-readable description. -/
structure CompletionWithDescription where
  value : String
  description : String
deriving DecidableEq, Repr

/-- A completion result: the character offset at which the completions splice into
the typed string, and the completions themselves. -/
structure CompletionResult where
  offset : Nat
  completions : List CompletionWithDescription
deriving DecidableEq, Repr

/-- Modelled from the spec: `getPrefixMatchesWithDescriptions` of
`neuroglancer/util/completion` (not among the sources) returns, in candidate
order, one completion for each candidate whose key string starts with the
partially typed string. -/
def getPrefixMatchesWithDescriptions {α : Type} (typed : String) (candidates : List α)
    (keyFn : α → String) (descFn : α → String) : List CompletionWithDescription :=
  (candidates.filter (fun x => jsStartsWith (keyFn x) typed)).map
    (fun x => ⟨keyFn x, descFn x⟩)

/-- Modelled from the spec: `applyCompletionOffset` of
`neuroglancer/util/completion` shifts a completion result by the given base
offset. -/
def applyCompletionOffset (baseOffset : Nat) (c : CompletionResult) : CompletionResult :=
  { c with offset := c.offset + baseOffset }

/-- `autoCompleteProject` of `frontend.ts`: project candidates in map insertion
order; the key is the stringified id with a trailing `/`. -/
def autoCompleteProject (projectIdPartial : String) (offset : Nat)
    (projectsList : JsMap ProjectInfo) : CompletionResult :=
  ⟨offset,
   getPrefixMatchesWithDescriptions projectIdPartial projectsList.values
     (fun x => toString x.id ++ "/") (fun x => x.title)⟩

/-- `autoCompleteStack` of `frontend.ts`: throws (here: `Except.error`) when the
named project is absent; stack candidates in map insertion order. -/
def autoCompleteStack (stackIdPartial : String) (projectId : String) (offset : Nat)
    (projectsList : JsMap ProjectInfo) : Except String CompletionResult :=
  match projectsList.get projectId with
  | none => .error ("Unable to find project " ++ projectId ++ " in projects list")
  | some projectInfo =>
    .ok ⟨offset,
         getPrefixMatchesWithDescriptions stackIdPartial projectInfo.stacks.values
           (fun x => toString x.id ++ "/") (fun x => x.title ++ ": " ++ x.comment)⟩

/-- Stable insertion of a mirror into a list sorted by ascending `position`:
the new element goes after every element whose position is `≤` its own. -/
def insertByPosition (m : StackMirror) : List StackMirror → List StackMirror
  | [] => [m]
  | x :: xs =>
    if x.position ≤ m.position then x :: insertByPosition m xs else m :: x :: xs

/-- The JS `sort((a, b) => a.position - b.position)` of `autoCompleteMirror`: a
stable ascending sort by `position` (ECMAScript `Array.prototype.sort` is
stable). -/
def sortByPosition (l : List StackMirror) : List StackMirror :=
  l.foldl (fun acc m => insertByPosition m acc) []

/-- `autoCompleteMirror` of `frontend.ts`: mirror candidates sorted by ascending
`position` before prefix matching; the key is the stringified id with no trailing
separator. -/
def autoCompleteMirror (mirrorIdPartial : String) (offset : Nat)
    (mirrorsList : JsMap StackMirror) : CompletionResult :=
  ⟨offset,
   getPrefixMatchesWithDescriptions mirrorIdPartial (sortByPosition mirrorsList.values)
     (fun x => toString x.id) (fun x => x.title)⟩

/-! ### The network oracle

`getProjectsList` and `getStackInfo` wrap the transport and the parsers of the
repository behind the memoized-future cache (modelled separately below, for the
memoization claim). For the resolver and completer, what matters is the eventual
outcome of each such request, so the pair is supplied as an explicit oracle, and
every request the code issues is recorded in a `FetchCall` log. -/

/-- One metadata request issued through the transport: the `getProjectsList` and
`getStackInfo` calls of `frontend.ts`, with the arguments the code passes
(`getStackInfo` receives `Number(projectId)` and `Number(stackId)`). -/
inductive FetchCall where
  | projects (url : String)
  | stackInfo (url : String) (projectId stackId : Option Int)
deriving DecidableEq, Repr

/-- The eventual outcomes of the two metadata requests, parameterized by the
rejection type `E` of the underlying promises. -/
structure Fetch (E : Type) where
  getProjectsList : String → Except E (JsMap ProjectInfo)
  getStackInfo : String → Option Int → Option Int → Except E StackInfo

/-- A rejection observed by a caller of the completer: either a rejected fetch,
propagated unchanged, or the `Error` thrown inside a then-callback by
`autoCompleteStack` when the project is absent. -/
inductive JsErr (E : Type) where
  | ext (e : E)
  | notFound (msg : String)
deriving DecidableEq, Repr

/-- `projectStackMirrorCompleter` of `frontend.ts`, with the requests it issues
logged in order. The last path segment is popped and first treated as a partial
project id against the hostname formed from the remaining segments; on rejection
the interpretation deepens (stack id, then mirror id) as long as segments remain
to peel, and the deepest applicable interpretation's rejection is the result. -/
def projectStackMirrorCompleter {E : Type} (f : Fetch E) (hostname0 : String)
    (path : String) : List FetchCall × Except (JsErr E) CompletionResult :=
  let pathSplit := jsSplit path
  let projectId := pathSplit.getLastD ""
  let rest1 := pathSplit.dropLast
  let url1 := joinSlash (hostname0 :: rest1)
  let offset := path.length - projectId.length
  match f.getProjectsList url1 with
  | .ok projectsList =>
    ([.projects url1], .ok (autoCompleteProject projectId offset projectsList))
  | .error projectError =>
    if rest1.length != 0 then
      let stackId := projectId
      let projectId2 := rest1.getLastD ""
      let rest2 := rest1.dropLast
      let url2 := joinSlash (hostname0 :: rest2)
      let step2 : Except (JsErr E) CompletionResult :=
        match f.getProjectsList url2 with
        | .ok projectsList =>
          match autoCompleteStack stackId projectId2 offset projectsList with
          | .ok r => .ok r
          | .error msg => .error (.notFound msg)
        | .error e => .error (.ext e)
      match step2 with
      | .ok r => ([.projects url1, .projects url2], .ok r)
      | .error stackError =>
        if rest2.length != 0 then
          let mirrorId := stackId
          let stackId2 := projectId2
          let projectId3 := rest2.getLastD ""
          let rest3 := rest2.dropLast
          let url3 := joinSlash (hostname0 :: rest3)
          let call3 : FetchCall := .stackInfo url3 (jsNumber projectId3) (jsNumber stackId2)
          match f.getStackInfo url3 (jsNumber projectId3) (jsNumber stackId2) with
          | .ok si =>
            ([.projects url1, .projects url2, call3],
             .ok (autoCompleteMirror mirrorId offset si.mirrors))
          | .error e =>
            ([.projects url1, .projects url2, call3], .error (.ext e))
        else
          ([.projects url1, .projects url2], .error stackError)
    else
      ([.projects url1], .error (.ext projectError))

/-! ### URL pattern matching

`volumeCompleter` and `getVolume` match their input against regular expressions;
the greedy decompositions those expressions compute are written out directly. -/

/-- The `(?:http|https):\/\/` scheme prefix: the input with `http://` or
`https://` stripped, or `none`. -/
def stripScheme (url : String) : Option (String × String) :=
  if jsStartsWith url "http://" then some ("http://", ⟨url.toList.drop 7⟩)
  else if jsStartsWith url "https://" then some ("https://", ⟨url.toList.drop 8⟩)
  else none

/-- A JavaScript line terminator, which `.` in a regular expression (without the
`s` flag) never matches: LF, CR, LINE SEPARATOR or PARAGRAPH SEPARATOR. A
negated character class such as `[^?]` does match these. -/
def isJsLineTerminator (c : Char) : Bool :=
  c == '\n' || c == '\r' || c == '\u2028' || c == '\u2029'

/-- The match of `volumeCompleter`'s pattern
`^((?:http|https):\/\/[^\/?]+)\/(.*)$`: after the scheme, a non-empty host free
of `/` and `?` (the negated class does admit line terminators), a literal `/`,
and the rest, which the `(.*)` group matches only when it holds no line
terminator. Returns (group 1, group 2). -/
def matchCompleterUrl (url : String) : Option (String × String) :=
  match stripScheme url with
  | none => none
  | some (scheme, rest) =>
    let cs := rest.toList
    let host := cs.takeWhile (fun c => c != '/' && c != '?')
    match cs.drop host.length with
    | '/' :: tail =>
      if host.isEmpty || tail.any isJsLineTerminator then none
      else some (scheme ++ ⟨host⟩, ⟨tail⟩)
    | _ => none

/-- The split of a character list at its last `/`: (before, after), or `none` if
it has no `/`. -/
def splitAtLastSlash (l : List Char) : Option (List Char × List Char) :=
  let revTail := l.reverse.takeWhile (fun c => c != '/')
  if revTail.length == l.length then none
  else some (l.take (l.length - revTail.length - 1), revTail.reverse)

/-- The match of `getVolume`'s pattern
`^((?:http|https):\/\/[^?]+)\/(.*)\/(.*)\/(.*)$`, with the greedy semantics of a
backtracking regex engine: group 1 (scheme plus host, where the host may itself
contain `/`, or a line terminator, but no `?`) extends to the rightmost `/` that
is preceded by no `?` and followed by at least two more `/` and no line
terminator (the three `(.*)` groups jointly cover everything after that `/`, and
`.` never matches a line terminator); the last two `/` then delimit greedy
groups 2–4. Returns (group 1, group 2, group 3, group 4). -/
def matchVolumePath (path : String) : Option (String × String × String × String) :=
  match stripScheme path with
  | none => none
  | some (scheme, rest) =>
    let cs := rest.toList
    let valid := (List.range cs.length).filter (fun i =>
      (cs.getD i ' ' == '/') && decide (1 ≤ i) && !((cs.take i).contains '?') &&
      decide (2 ≤ (cs.drop (i + 1)).count '/') &&
      !((cs.drop (i + 1)).any isJsLineTerminator))
    match valid.getLastD 0, valid.isEmpty with
    | _, true => none
    | i, false =>
      let host := cs.take i
      let tail := cs.drop (i + 1)
      match splitAtLastSlash tail with
      | none => none
      | some (front, c) =>
        match splitAtLastSlash front with
        | none => none
        | some (a, b) => some (scheme ++ ⟨host⟩, ⟨a⟩, ⟨b⟩, ⟨c⟩)

/-- A rejection observed by a caller of `volumeCompleter`: the bare
`Promise.reject(null)` issued for a URL that does not yet look like a CATMAID
path, or a rejection thrown further in. -/
inductive Rejection (E : Type) where
  | nullValue
  | thrown (e : JsErr E)
deriving DecidableEq, Repr

/-- `CatmaidDataSource.volumeCompleter` of `frontend.ts`: match off the scheme
and host, reject with `null` when the pattern does not match (issuing no
request), and otherwise delegate to the completer and shift its offset by the
length of the stripped prefix plus one for the separating `/`. -/
def volumeCompleter {E : Type} (f : Fetch E) (url : String) :
    List FetchCall × Except (Rejection E) CompletionResult :=
  match matchCompleterUrl url with
  | none => ([], .error .nullValue)
  | some (hostnamesBase0, path) =>
    let r := projectStackMirrorCompleter f hostnamesBase0 path
    (r.1,
     match r.2 with
     | .ok completions => .ok (applyCompletionOffset (hostnamesBase0.length + 1) completions)
     | .error e => .error (.thrown e))

/-! ### The multiscale tile source -/

/-- `enum TileEncoding` of `base.ts`. -/
inductive TileEncoding where
  | JPEG
deriving DecidableEq, Repr

/-- `class MultiscaleTileSource` of `frontend.ts`: the fields its constructor
stores. (The constructor's `stackInfo === undefined` guard cannot fire in a
typed embedding; `encoding` is always `TileEncoding.JPEG`.) -/
structure MultiscaleTileSource where
  url : String
  stackInfo : StackInfo
  mirrorId : String
deriving DecidableEq, Repr

/-- `JSON.stringify` of a string as used in `getVolume`'s error message. (The
escaping of special characters inside the path is not modelled; no claim depends
on the message text for such paths.) -/
def jsonStringify (s : String) : String := "\"" ++ s ++ "\""

/-- `getVolume` of `frontend.ts`: an invalid path throws synchronously
(`Except.error` on the outside); a matching path issues one `getStackInfo`
request — with `Number(project)` and `Number(stack)` — and resolves to a
`MultiscaleTileSource` built from the stack info and the raw mirror segment,
never consulting the projects list and never checking the mirror id. The
surrounding `chunkManager.memoize.getUncounted` wrapper is modelled separately
(see `MemoState`). -/
def getVolume {E : Type} (f : Fetch E) (path : String) :
    Except String (List FetchCall × Except E MultiscaleTileSource) :=
  match matchVolumePath path with
  | none => .error ("Invalid catmaid tile path " ++ jsonStringify path)
  | some (url, project, stack, mirror) =>
    .ok ([.stackInfo url (jsNumber project) (jsNumber stack)],
         match f.getStackInfo url (jsNumber project) (jsNumber stack) with
         | .ok si => .ok { url := url, stackInfo := si, mirrorId := mirror }
         | .error e => .error e)

/-- The smallest `k` with `n ≤ 2 ^ k` (so `⌈log₂ n⌉` for `n ≥ 1`), computed by
counting up from `k` with enough fuel. -/
def ceilLog2From (n : Nat) : Nat → Nat → Nat
  | 0, k => k
  | fuel + 1, k => if n ≤ 2 ^ k then k else ceilLog2From n fuel (k + 1)

/-- `⌈log₂ n⌉` for `n ≥ 1` (and `0` for `n = 0`): the smallest `k` with
`n ≤ 2 ^ k`. -/
def ceilLog2 (n : Nat) : Nat := ceilLog2From n n 0

/-- `Math.ceil(Math.log2(d / 1024))` for a positive integer `d`, in exact
arithmetic: since `1024 = 2 ^ 10`, `⌈log₂ (d / 1024)⌉ = ⌈log₂ d⌉ - 10`. -/
def ceilLog2Div1024 (d : Int) : Int := (ceilLog2 d.toNat : Int) - 10

/-- The effective number of zoom levels of `getSources`: the stored value, or,
when that is negative, `Math.ceil(Math.max(Math.log2(dimension[0] / 1024),
Math.log2(dimension[1] / 1024)))` — written as the max of the per-axis ceilings,
which is equal because `Math.ceil` is monotone and commutes with `max`. -/
def effectiveNumLevels (si : StackInfo) : Int :=
  if si.zoomLevels < 0 then
    max (ceilLog2Div1024 si.dimension.x) (ceilLog2Div1024 si.dimension.y)
  else si.zoomLevels

/-- The chunk-source descriptor one pyramid level contributes: the
`VolumeChunkSpecification` geometry together with the parameter bag handed to
`chunkManager.getChunkSource` (both opaque collaborators). -/
structure LevelSource where
  voxelSize : Vec3 ℚ
  chunkDataSize : Vec3 Int
  lowerVoxelBound : Vec3 Int
  upperVoxelBound : Vec3 Int
  sourceBaseUrls : String
  encoding : TileEncoding
  zoomLevel : Int
  tileHeight : Int
  tileWidth : Int
  tileSourceType : Int
deriving DecidableEq, Repr

/-- The body of `getSources`'s per-level loop: voxel size doubled per level in
x and y only, chunk size (tileWidth, tileHeight, 1), bounds from the origin to
the stack dimension (the translation is deliberately not applied — the code
computing bounds from it is commented out in the source). -/
def mkLevelSource (si : StackInfo) (mirror : StackMirror) (level : Nat) : LevelSource :=
  { voxelSize := ⟨si.resolution.x * 2 ^ level, si.resolution.y * 2 ^ level, si.resolution.z⟩
    chunkDataSize := ⟨mirror.tileWidth, mirror.tileHeight, 1⟩
    lowerVoxelBound := ⟨0, 0, 0⟩
    upperVoxelBound := si.dimension
    sourceBaseUrls := mirror.url
    encoding := .JPEG
    zoomLevel := (level : Int)
    tileHeight := mirror.tileHeight
    tileWidth := mirror.tileWidth
    tileSourceType := mirror.tileSourceType }

/-- `MultiscaleTileSource.getSources` of `frontend.ts`: fails when the stored
mirror id is absent from the stack's mirrors map, and otherwise emits one
single-element group per zoom level `0 .. effectiveNumLevels` inclusive (none
when that bound is negative, matching the JS `for` loop). -/
def getSources (self : MultiscaleTileSource) : Except String (List (List LevelSource)) :=
  match self.stackInfo.mirrors.get self.mirrorId with
  | none => .error ("Unable to find mirror " ++ self.mirrorId ++ " for stack")
  | some mirror =>
    let numLevels := effectiveNumLevels self.stackInfo
    .ok ((List.range (numLevels + 1).toNat).map
      (fun level => [mkLevelSource self.stackInfo mirror level]))

/-! ### The memoized-future request cache

`getStackInfo` and `getProjectsList` wrap their transport request in
`chunkManager.memoize.getUncounted(key, …)`. That cache lives outside the
sources; the definitions below are modelled from the spec: a mapping from a
structural request key to the shared in-flight or resolved future, where
concurrent identical requests coalesce onto one transport operation, a
successful result is cached, and a failed entry is removed before the failure
propagates, so a later identical request re-fetches. The single-threaded
cooperative execution is modelled as a sequence of events: each `request`
returns immediately (with a cached value or attached to an in-flight
generation), and a later `settle` delivers the transport outcome for the
generation then in flight. -/

/-- The structural cache key of `getStackInfo`:
`{type: 'catmaid:getStackInfo', hostname, projectId, stackId}`. -/
structure StackInfoKey where
  hostname : String
  projectId : Int
  stackId : Int
deriving DecidableEq, Repr

/-- The structural cache key of `getProjectsList`:
`{type: 'catmaid:getProjectsList', hostnames}`. -/
structure ProjectsListKey where
  hostnames : List String
deriving DecidableEq, Repr

/-- The outcome of a transport request. -/
inductive Outcome (V E : Type) where
  | ok (v : V)
  | err (e : E)
deriving DecidableEq, Repr

/-- What a `request` returns at once: a cached value, or attachment to the
in-flight request of the given generation. -/
inductive Obs (V : Type) where
  | cached (v : V)
  | attached (gen : Nat)
deriving DecidableEq, Repr

/-- First binding of a key in an association list. -/
def lookupKey {K α : Type} [DecidableEq K] : List (K × α) → K → Option α
  | [], _ => none
  | (k0, v) :: rest, k => if k0 = k then some v else lookupKey rest k

/-- Modelled from the spec: the state of the memoized-future cache — the
in-flight request generation per key, the resolved values per key, and the next
fresh generation. -/
structure MemoState (K V : Type) where
  pending : List (K × Nat)
  resolved : List (K × V)
  nextGen : Nat
deriving Repr

/-- The empty cache. -/
def MemoState.empty {K V : Type} : MemoState K V := ⟨[], [], 0⟩

/-- Modelled from the spec: a caller requests the value for `key`. A resolved
key answers from the cache; a pending key attaches the caller to the in-flight
request; otherwise a new transport request is issued (the returned flag). -/
def MemoState.request {K V : Type} [DecidableEq K] (s : MemoState K V) (k : K) :
    MemoState K V × Obs V × Bool :=
  match lookupKey s.resolved k with
  | some v => (s, .cached v, false)
  | none =>
    match lookupKey s.pending k with
    | some g => (s, .attached g, false)
    | none =>
      ({ pending := (k, s.nextGen) :: s.pending, resolved := s.resolved,
         nextGen := s.nextGen + 1 },
       .attached s.nextGen, true)

/-- Modelled from the spec: the transport request for `key` settles. Every
caller attached to the in-flight generation observes the outcome; a success is
cached, while a failure's entry is removed before the failure propagates, so a
later identical request re-fetches. -/
def MemoState.settle {K V E : Type} [DecidableEq K] (s : MemoState K V) (k : K)
    (out : Outcome V E) : MemoState K V × Option Nat :=
  match lookupKey s.pending k with
  | none => (s, none)
  | some g =>
    let pending2 := s.pending.filter (fun p => !(decide (p.1 = k)))
    match out with
    | .ok v =>
      ({ pending := pending2, resolved := (k, v) :: s.resolved, nextGen := s.nextGen },
       some g)
    | .err _ =>
      ({ pending := pending2, resolved := s.resolved, nextGen := s.nextGen }, some g)

/-- One event of a cooperative execution: a caller's request, or the settling of
the in-flight transport request for a key. -/
inductive MemoEvent (K V E : Type) where
  | request (k : K)
  | settle (k : K) (out : Outcome V E)

/-- A finished run: the final cache state, how many transport requests were
issued, what each `request` event returned (in order), and the outcome each
settled generation delivered. -/
structure MemoRun (K V E : Type) where
  state : MemoState K V
  transports : Nat
  observations : List (Obs V)
  settledGens : List (Nat × Outcome V E)

/-- Run a sequence of events against the cache, starting from `start`. -/
def runMemoFrom {K V E : Type} [DecidableEq K] (start : MemoRun K V E) :
    List (MemoEvent K V E) → MemoRun K V E
  | [] => start
  | .request k :: rest =>
    let (s2, o, issued) := start.state.request k
    runMemoFrom
      { state := s2, transports := start.transports + (if issued then 1 else 0),
        observations := start.observations ++ [o],
        settledGens := start.settledGens } rest
  | .settle k out :: rest =>
    let (s2, g?) := MemoState.settle start.state k out
    runMemoFrom
      { state := s2, transports := start.transports,
        observations := start.observations,
        settledGens := start.settledGens ++
          (match g? with | some g => [(g, out)] | none => []) } rest

/-- Run a sequence of events against the empty cache. -/
def runMemo {K V E : Type} [DecidableEq K] (events : List (MemoEvent K V E)) :
    MemoRun K V E :=
  runMemoFrom ⟨MemoState.empty, 0, [], []⟩ events

/-- The eventual result a caller observes: a cached value at once, or the
outcome the attached generation settled with. -/
def Obs.eventual {V E : Type} (o : Obs V) (settledGens : List (Nat × Outcome V E)) :
    Option (Outcome V E) :=
  match o with
  | .cached v => some (.ok v)
  | .attached g => lookupKey settledGens g

/-! ### Spec-side definitions

Definitions written from the spec's words, to be compared with the embeddings of
the source above. -/

/-- The spec's input path grammar for a resolved volume,
`http(s)://host/project/stack/mirror`: a scheme, then a non-empty host, then
three trailing `/`-separated parts. As everywhere in this datasource the host
may absorb further path segments, so it may contain `/`; not being a query
string, it contains no `?`. The three trailing parts are the `(.*)` groups of
the source's pattern: they hold no line terminator (which `.` never matches) but
are otherwise unconstrained (in the pathological case of a `?` early in the path
they can absorb `/` themselves). -/
def volumePathShape (path : String) : Prop :=
  ∃ scheme host p s m : String,
    (scheme = "http://" ∨ scheme = "https://") ∧
    host ≠ "" ∧ ¬ host.toList.contains '?' ∧
    p.toList.any isJsLineTerminator = false ∧
    s.toList.any isJsLineTerminator = false ∧
    m.toList.any isJsLineTerminator = false ∧
    path = scheme ++ host ++ "/" ++ p ++ "/" ++ s ++ "/" ++ m

/-- The spec's shape of a URL the completer accepts work on:
`http(s)://host/` followed by any partial path, with a single-segment host
(no `/`, no `?`) and the partial path free of line terminators (the source's
`(.*)` group never matches one). -/
def completerUrlShape (url : String) : Prop :=
  ∃ scheme host p : String,
    (scheme = "http://" ∨ scheme = "https://") ∧
    host ≠ "" ∧ ¬ host.toList.contains '/' ∧ ¬ host.toList.contains '?' ∧
    p.toList.any isJsLineTerminator = false ∧
    url = scheme ++ host ++ "/" ++ p

/-- The spec's reading of the completer, §4.4: a fixed cascade of exactly three
interpretations of the typed path, tried in order, deepening only on failure.
The segments are indexed from the right: with `n` segments, the last (index
`n - 1`) is the one being completed; depth 2 uses segment `n - 2` as a complete
project id and needs `n ≥ 2`; depth 3 uses segments `n - 3` and `n - 2` as a
complete project and stack id and needs `n ≥ 3`; the hostname at each depth is
the join of the segments before those consumed. A successful interpretation
returns its completions without attempting a deeper one, and the failure of the
deepest applicable interpretation is the caller's result. -/
def cascadeSpec {E : Type} (f : Fetch E) (hostname0 : String) (path : String) :
    List FetchCall × Except (JsErr E) CompletionResult :=
  let segs := jsSplit path
  let n := segs.length
  let lastSeg := segs.getLastD ""
  let offset := path.length - lastSeg.length
  let url1 := joinSlash (hostname0 :: segs.take (n - 1))
  match f.getProjectsList url1 with
  | .ok pl => ([.projects url1], .ok (autoCompleteProject lastSeg offset pl))
  | .error e1 =>
    if 2 ≤ n then
      let url2 := joinSlash (hostname0 :: segs.take (n - 2))
      let depth2 : Except (JsErr E) CompletionResult :=
        match f.getProjectsList url2 with
        | .ok pl =>
          match autoCompleteStack lastSeg (segs.getD (n - 2) "") offset pl with
          | .ok r => .ok r
          | .error msg => .error (.notFound msg)
        | .error e => .error (.ext e)
      match depth2 with
      | .ok r => ([.projects url1, .projects url2], .ok r)
      | .error e2 =>
        if 3 ≤ n then
          let url3 := joinSlash (hostname0 :: segs.take (n - 3))
          let call3 : FetchCall :=
            .stackInfo url3 (jsNumber (segs.getD (n - 3) "")) (jsNumber (segs.getD (n - 2) ""))
          match f.getStackInfo url3 (jsNumber (segs.getD (n - 3) ""))
              (jsNumber (segs.getD (n - 2) "")) with
          | .ok si =>
            ([.projects url1, .projects url2, call3],
             .ok (autoCompleteMirror lastSeg offset si.mirrors))
          | .error e => ([.projects url1, .projects url2, call3], .error (.ext e))
        else
          ([.projects url1, .projects url2], .error e2)
    else
      ([.projects url1], .error (.ext e1))

/-- The JSON of one project entry with the given id, title and
(id, title, comment) stack descriptors, shaped as the server sends it. -/
def projectJson (id : Int) (title : String) (stackList : List (Int × String × String)) :
    Json :=
  Json.obj [("id", .num id), ("title", .str title),
    ("stacks", .arr (stackList.map (fun t =>
      Json.obj [("id", .num t.1), ("title", .str t.2.1), ("comment", .str t.2.2)])))]

/-- The `StackIdentifier` a well-formed stack descriptor triple parses to. -/
def stackIdentOf (t : Int × String × String) : StackIdentifier :=
  ⟨t.1, t.2.1, t.2.2⟩

/-! ### Sample data for the witnesses -/

/-- A sample mirror with id 5. -/
def mirror5 : StackMirror :=
  ⟨5, "mirror five", "jpg", 256, 512, 9, "http://tiles.example/", 1⟩

/-- A sample stack with two stored zoom levels and mirror 5. -/
def stackInfo0 : StackInfo :=
  ⟨⟨4096, 2048, 10⟩, ⟨7, 8, 9⟩, ⟨4, 4, 40⟩, 2, 11, ⟨[("5", mirror5)]⟩⟩

/-- A sample stack with `num_zoom_levels = -1` ("auto") and dimension
`(4096, 2048, 10)`. -/
def stackInfoAuto : StackInfo :=
  ⟨⟨4096, 2048, 10⟩, ⟨0, 0, 0⟩, ⟨4, 4, 40⟩, -1, 12, ⟨[("5", mirror5)]⟩⟩

/-- A network oracle whose stack-info request always succeeds with `stackInfo0`
and whose projects-list request always fails. -/
def sampleFetch : Fetch Unit :=
  ⟨fun _ => .error (), fun _ _ _ => .ok stackInfo0⟩

/-- A mirrors map whose insertion order carries positions [3, 1, 2]: mirror 10 at
position 3, then mirror 11 at position 1, then mirror 12 at position 2. -/
def mirrors312 : JsMap StackMirror :=
  ⟨[("10", ⟨10, "third", "jpg", 256, 256, 1, "http://m10/", 3⟩),
    ("11", ⟨11, "first", "jpg", 256, 256, 1, "http://m11/", 1⟩),
    ("12", ⟨12, "second", "jpg", 256, 256, 1, "http://m12/", 2⟩)]⟩

/-- A projects map inserted in id order [3, 1, 2]. -/
def projects312 : JsMap ProjectInfo :=
  ⟨[("3", ⟨3, "pc", JsMap.empty⟩), ("1", ⟨1, "pa", JsMap.empty⟩),
    ("2", ⟨2, "pb", JsMap.empty⟩)]⟩

/-- A projects map whose single project "1" holds stacks inserted in id order
[3, 1, 2]. -/
def projectsS312 : JsMap ProjectInfo :=
  ⟨[("1", ⟨1, "pa", ⟨[("3", ⟨3, "sc", "c3"⟩), ("1", ⟨1, "sa", "c1"⟩),
    ("2", ⟨2, "sb", "c2"⟩)]⟩⟩)]⟩

/-! ## Helper lemmas -/

theorem splitOnSlash_ne_nil (l : List Char) : splitOnSlash l ≠ [] := by
  cases l with
  | nil => simp [splitOnSlash]
  | cons c cs =>
    unfold splitOnSlash
    cases splitOnSlash cs with
    | nil => simp
    | cons s ss =>
      dsimp only
      split <;> simp

theorem jsSplit_ne_nil (s : String) : jsSplit s ≠ [] := by
  unfold jsSplit
  simp only [ne_eq, List.map_eq_nil_iff]
  exact splitOnSlash_ne_nil s.toList

theorem getD_append_self {α : Type} (l1 l2 : List α) (d : α) :
    (l1 ++ l2).getD l1.length d = l2.getD 0 d := by
  simp [List.getD_eq_getElem?_getD, List.getElem?_append_right (Nat.le_refl l1.length)]

theorem getD_append_add {α : Type} (l1 l2 : List α) (j : Nat) (d : α) :
    (l1 ++ l2).getD (l1.length + j) d = l2.getD j d := by
  simp [List.getD_eq_getElem?_getD, List.getElem?_append_right (Nat.le_add_right l1.length j)]

/-- C1. The completer of the source realizes the spec's fixed three-depth
fallback cascade: the last path segment is first completed as a project id
against the hostname joined from the other segments; a failure with at least
two segments is reinterpreted at stack depth, a further failure with at least
three segments at mirror depth, issuing exactly the requests of the successive
interpretations; a shallower success never reaches deeper, and the failure of
the deepest applicable interpretation is the result. -/
theorem completer_matches_cascade {E : Type} (f : Fetch E) (hostname0 path : String) :
    projectStackMirrorCompleter f hostname0 path = cascadeSpec f hostname0 path := by
  rcases List.eq_nil_or_concat (jsSplit path) with hnil | ⟨init, lastSeg, hs⟩
  · exact absurd hnil (jsSplit_ne_nil path)
  rw [List.concat_eq_append] at hs
  unfold projectStackMirrorCompleter cascadeSpec
  rw [hs]
  simp only [List.dropLast_concat, List.getLastD_concat, List.length_append,
    List.length_cons, List.length_nil, Nat.zero_add, Nat.add_sub_cancel,
    List.take_left]
  cases hg1 : f.getProjectsList (joinSlash (hostname0 :: init)) with
  | ok pl => rfl
  | error e1 =>
    dsimp only
    rcases List.eq_nil_or_concat init with hinil | ⟨init2, last2, hi⟩
    · subst hinil
      simp
    rw [List.concat_eq_append] at hi
    subst hi
    have h2 : init2.length + 1 + 1 - 2 = init2.length := by omega
    have htk2 : (init2 ++ [last2] ++ [lastSeg]).take init2.length = init2 := by
      rw [List.append_assoc]
      exact List.take_left' rfl
    have hgd2 : (init2 ++ [last2] ++ [lastSeg]).getD init2.length "" = last2 := by
      rw [List.append_assoc, getD_append_self]
      rfl
    simp only [List.length_append, List.length_cons, List.length_nil, Nat.zero_add,
      List.dropLast_concat, List.getLastD_concat, h2, htk2, hgd2]
    have hgT : (init2.length + 1 != 0) = true := by simp
    have hgT2 : 2 ≤ init2.length + 1 + 1 := by omega
    rw [if_pos hgT, if_pos hgT2]
    cases hg2 : f.getProjectsList (joinSlash (hostname0 :: init2)) with
    | ok pl2 =>
      dsimp only
      cases hst : autoCompleteStack lastSeg last2 (path.length - lastSeg.length) pl2 with
      | ok r => simp only [hst]
      | error msg =>
        simp only [hst]
        rcases List.eq_nil_or_concat init2 with hi2nil | ⟨init3, last3, hi3⟩
        · subst hi2nil
          simp
        rw [List.concat_eq_append] at hi3
        subst hi3
        have h3 : init3.length + 1 + 1 + 1 - 3 = init3.length := by omega
        have h3b : init3.length + 1 + 1 + 1 - 2 = init3.length + 1 := by omega
        have htk3 : (init3 ++ [last3] ++ [last2] ++ [lastSeg]).take init3.length = init3 := by
          rw [List.append_assoc, List.append_assoc]
          exact List.take_left' rfl
        have hgd3 : (init3 ++ [last3] ++ [last2] ++ [lastSeg]).getD init3.length "" = last3 := by
          rw [List.append_assoc, List.append_assoc, getD_append_self]
          rfl
        have hgd3b : (init3 ++ [last3] ++ [last2] ++ [lastSeg]).getD (init3.length + 1) "" = last2 := by
          rw [List.append_assoc, List.append_assoc, getD_append_add]
          rfl
        simp only [List.length_append, List.length_cons, List.length_nil, Nat.zero_add,
          List.dropLast_concat, List.getLastD_concat, h3, h3b, htk3, hgd3, hgd3b]
        have hgT3 : (init3.length + 1 != 0) = true := by simp
        have hgT3b : 3 ≤ init3.length + 1 + 1 + 1 := by omega
        rw [if_pos hgT3, if_pos hgT3b]
    | error e2 =>
      dsimp only
      rcases List.eq_nil_or_concat init2 with hi2nil | ⟨init3, last3, hi3⟩
      · subst hi2nil
        simp
      rw [List.concat_eq_append] at hi3
      subst hi3
      have h3 : init3.length + 1 + 1 + 1 - 3 = init3.length := by omega
      have h3b : init3.length + 1 + 1 + 1 - 2 = init3.length + 1 := by omega
      have htk3 : (init3 ++ [last3] ++ [last2] ++ [lastSeg]).take init3.length = init3 := by
        rw [List.append_assoc, List.append_assoc]
        exact List.take_left' rfl
      have hgd3 : (init3 ++ [last3] ++ [last2] ++ [lastSeg]).getD init3.length "" = last3 := by
        rw [List.append_assoc, List.append_assoc, getD_append_self]
        rfl
      have hgd3b : (init3 ++ [last3] ++ [last2] ++ [lastSeg]).getD (init3.length + 1) "" = last2 := by
        rw [List.append_assoc, List.append_assoc, getD_append_add]
        rfl
      simp only [List.length_append, List.length_cons, List.length_nil, Nat.zero_add,
        List.dropLast_concat, List.getLastD_concat, h3, h3b, htk3, hgd3, hgd3b]
      have hgT3 : (init3.length + 1 != 0) = true := by simp
      have hgT3b : 3 ≤ init3.length + 1 + 1 + 1 := by omega
      rw [if_pos hgT3, if_pos hgT3b]

end Catmaid

namespace Catmaid

theorem autoCompleteStack_ok_offset (stackIdPartial projectId : String) (off : Nat)
    (pl : JsMap ProjectInfo) (r : CompletionResult)
    (h : autoCompleteStack stackIdPartial projectId off pl = .ok r) : r.offset = off := by
  unfold autoCompleteStack at h
  split at h
  · exact absurd h (by simp)
  · simp only [Except.ok.injEq] at h
    rw [← h]

theorem completer_ok_offset {E : Type} (f : Fetch E) (hostname0 path : String)
    (c : CompletionResult)
    (hc : (projectStackMirrorCompleter f hostname0 path).2 = .ok c) :
    c.offset = path.length - ((jsSplit path).getLastD "").length := by
  unfold projectStackMirrorCompleter at hc
  dsimp only at hc
  split at hc
  · simp only [Except.ok.injEq] at hc
    rw [← hc]
    rfl
  · split at hc
    · split at hc
      · simp only [Except.ok.injEq] at hc
        rename_i r hr
        split at hr
        · rename_i pl2 hpl2
          rw [← hc]
          exact autoCompleteStack_ok_offset _ _ _ _ _ (by
            cases hst : autoCompleteStack ((jsSplit path).getLastD "")
                ((jsSplit path).dropLast.getLastD "")
                (path.length - ((jsSplit path).getLastD "").length) pl2 with
            | ok r2 => rw [hst] at hr; cases hr; rfl
            | error m => rw [hst] at hr; cases hr)
        · cases hr
      · split at hc
        · split at hc
          · simp only [Except.ok.injEq] at hc
            rw [← hc]
            rfl
          · cases hc
        · cases hc
    · cases hc

end Catmaid

namespace Catmaid

/-- C5. Every successful completion — at whatever fallback depth it was produced —
reports the offset `path.length - (length of the last, currently-completing
segment)` into the path that follows the stripped `scheme://host` prefix, and
`volumeCompleter` then adds the length of that stripped prefix plus one for the
separating slash. -/
theorem completion_offset_bookkeeping {E : Type} (f : Fetch E) (hostname0 path : String) :
    (∀ c : CompletionResult,
      (projectStackMirrorCompleter f hostname0 path).2 = .ok c →
      c.offset = path.length - ((jsSplit path).getLastD "").length) ∧
    (∀ (url hostBase p : String) (c : CompletionResult),
      matchCompleterUrl url = some (hostBase, p) →
      (volumeCompleter f url).2 = .ok c →
      c.offset = (p.length - ((jsSplit p).getLastD "").length) + (hostBase.length + 1)) := by
  refine ⟨fun c hc => completer_ok_offset f hostname0 path c hc, ?_⟩
  intro url hostBase p c hmatch hc
  unfold volumeCompleter at hc
  rw [hmatch] at hc
  dsimp only at hc
  cases hinner : (projectStackMirrorCompleter f hostBase p).2 with
  | ok c0 =>
    rw [hinner] at hc
    simp only [Except.ok.injEq] at hc
    rw [← hc]
    simp only [applyCompletionOffset]
    rw [completer_ok_offset f hostBase p c0 hinner]
  | error e =>
    rw [hinner] at hc
    cases hc

end Catmaid

namespace Catmaid

/-- C2. For a stack whose mirror id resolves and whose stored zoom level count
`N` is non-negative, `getSources` yields exactly `N + 1` single-element groups,
the level-`L` group holding voxel size `(resolution.x · 2^L, resolution.y · 2^L,
resolution.z)` (z never scaled), chunk size `(tileWidth, tileHeight, 1)`, and
voxel bounds from the zero vector to the stack dimension — the translation never
applied. -/
theorem getSources_pyramid_geometry (url : String) (si : StackInfo) (mirrorId : String)
    (mirror : StackMirror) (hm : si.mirrors.get mirrorId = some mirror)
    (hz : 0 ≤ si.zoomLevels) :
    getSources ⟨url, si, mirrorId⟩ =
      .ok ((List.range (si.zoomLevels.toNat + 1)).map (fun (level : Nat) =>
        [{ voxelSize := ⟨si.resolution.x * 2 ^ level, si.resolution.y * 2 ^ level,
             si.resolution.z⟩
           chunkDataSize := ⟨mirror.tileWidth, mirror.tileHeight, 1⟩
           lowerVoxelBound := ⟨0, 0, 0⟩
           upperVoxelBound := si.dimension
           sourceBaseUrls := mirror.url
           encoding := .JPEG
           zoomLevel := (level : Int)
           tileHeight := mirror.tileHeight
           tileWidth := mirror.tileWidth
           tileSourceType := mirror.tileSourceType }])) := by
  unfold getSources
  rw [hm]
  dsimp only
  have he : effectiveNumLevels si = si.zoomLevels := by
    unfold effectiveNumLevels
    rw [if_neg (not_lt.mpr hz)]
  rw [he]
  have h1 : (si.zoomLevels + 1).toNat = si.zoomLevels.toNat + 1 := by omega
  rw [h1]
  rfl

/-- Witness for C2: `stackInfo0` has zoomLevels 2, resolution (4, 4, 40), and
mirror "5" with tile size 512 × 256; its pyramid is as the theorem states. -/
theorem getSources_pyramid_geometry_witness :
    stackInfo0.mirrors.get "5" = some mirror5 ∧ 0 ≤ stackInfo0.zoomLevels ∧
    getSources ⟨"http://h", stackInfo0, "5"⟩ =
      .ok ((List.range (stackInfo0.zoomLevels.toNat + 1)).map (fun (level : Nat) =>
        [{ voxelSize := ⟨stackInfo0.resolution.x * 2 ^ level,
             stackInfo0.resolution.y * 2 ^ level, stackInfo0.resolution.z⟩
           chunkDataSize := ⟨mirror5.tileWidth, mirror5.tileHeight, 1⟩
           lowerVoxelBound := ⟨0, 0, 0⟩
           upperVoxelBound := stackInfo0.dimension
           sourceBaseUrls := mirror5.url
           encoding := .JPEG
           zoomLevel := (level : Int)
           tileHeight := mirror5.tileHeight
           tileWidth := mirror5.tileWidth
           tileSourceType := mirror5.tileSourceType }])) :=
  ⟨by decide, by decide,
   getSources_pyramid_geometry "http://h" stackInfo0 "5" mirror5 (by decide) (by decide)⟩

theorem ceilLog2From_le (n : Nat) :
    ∀ (fuel k : Nat), n ≤ 2 ^ (k + fuel) → n ≤ 2 ^ ceilLog2From n fuel k := by
  intro fuel
  induction fuel with
  | zero =>
    intro k h
    simpa [ceilLog2From] using h
  | succ m ih =>
    intro k h
    unfold ceilLog2From
    split
    · assumption
    · have harith : k + (m + 1) = (k + 1) + m := by omega
      rw [harith] at h
      exact ih (k + 1) h

theorem ceilLog2From_min (n : Nat) :
    ∀ (fuel k j : Nat), k ≤ j → n ≤ 2 ^ j → ceilLog2From n fuel k ≤ j := by
  intro fuel
  induction fuel with
  | zero =>
    intro k j hkj _
    simpa [ceilLog2From] using hkj
  | succ m ih =>
    intro k j hkj hj
    unfold ceilLog2From
    split
    · exact hkj
    · rename_i hnk
      refine ih (k + 1) j ?_ hj
      rcases Nat.lt_or_ge k j with h | h
      · omega
      · exact absurd (hj.trans (Nat.pow_le_pow_right (by norm_num) h)) hnk

/-- `ceilLog2 n` is `⌈log₂ n⌉`: the least `m` with `n ≤ 2 ^ m`. -/
theorem ceilLog2_le_iff (n m : Nat) : ceilLog2 n ≤ m ↔ n ≤ 2 ^ m := by
  constructor
  · intro h
    have h1 : n ≤ 2 ^ ceilLog2 n :=
      ceilLog2From_le n n 0 (by simpa using Nat.le_of_lt (Nat.lt_two_pow n))
    exact h1.trans (Nat.pow_le_pow_right (by norm_num) h)
  · intro h
    exact ceilLog2From_min n n 0 m (Nat.zero_le m) h

/-- `ceilLog2Div1024 d` is `⌈log₂ (d / 1024)⌉` for positive `d`: the least
integer `k` with `d / 1024 ≤ 2 ^ k`. -/
theorem ceilLog2Div1024_le_iff (d : Int) (hd : 1 ≤ d) (k : Int) :
    ceilLog2Div1024 d ≤ k ↔ (d : ℚ) / 1024 ≤ 2 ^ k := by
  rw [div_le_iff₀ (by norm_num : (0:ℚ) < 1024)]
  have hmul : (2:ℚ) ^ k * 1024 = 2 ^ (k + 10) := by
    rw [zpow_add₀ (by norm_num : (2:ℚ) ≠ 0) k 10]
    norm_num
  rw [hmul]
  unfold ceilLog2Div1024
  rcases Int.lt_or_le (k + 10) 0 with hneg | hpos
  · constructor
    · intro h
      exfalso
      omega
    · intro h
      exfalso
      have hle : (2:ℚ) ^ (k + 10) ≤ 2 ^ (-1 : ℤ) :=
        zpow_le_zpow_right₀ (by norm_num) (by omega)
      rw [(by norm_num : (2:ℚ) ^ (-1 : ℤ) = 1 / 2)] at hle
      have hd1 : (1:ℚ) ≤ (d:ℚ) := by exact_mod_cast hd
      linarith
  · have hm : (((k + 10).toNat : ℕ) : ℤ) = k + 10 := Int.toNat_of_nonneg hpos
    set m := (k + 10).toNat with hmdef
    have hq : (2:ℚ) ^ (k + 10) = ((2 ^ m : ℕ) : ℚ) := by
      rw [← hm]
      push_cast [zpow_natCast]
      ring
    rw [hq]
    have hcast : ((d:ℚ) ≤ ((2 ^ m : ℕ) : ℚ)) ↔ d ≤ ((2 ^ m : ℕ) : ℤ) := by
      exact_mod_cast Iff.rfl
    rw [hcast]
    have htn : (d ≤ ((2 ^ m : ℕ) : ℤ)) ↔ d.toNat ≤ 2 ^ m := by omega
    rw [htn, ← ceilLog2_le_iff]
    omega

/-- C3. With a negative stored zoom level count, `getSources` derives the
effective top level as `⌈max(log₂(dimension.x / 1024), log₂(dimension.y / 1024))⌉`
— characterized as the least integer `k` with `dimension.x / 1024 ≤ 2 ^ k` and
`dimension.y / 1024 ≤ 2 ^ k` — and emits exactly the levels 0 through that
bound. -/
theorem getSources_auto_zoom_levels (url : String) (si : StackInfo) (mirrorId : String)
    (mirror : StackMirror) (hm : si.mirrors.get mirrorId = some mirror)
    (hz : si.zoomLevels < 0) (hx : 1 ≤ si.dimension.x) (hy : 1 ≤ si.dimension.y) :
    (∀ k : Int, effectiveNumLevels si ≤ k ↔
      ((si.dimension.x : ℚ) / 1024 ≤ 2 ^ k ∧ (si.dimension.y : ℚ) / 1024 ≤ 2 ^ k)) ∧
    getSources ⟨url, si, mirrorId⟩ =
      .ok ((List.range ((effectiveNumLevels si + 1).toNat)).map (fun level =>
        [mkLevelSource si mirror level])) := by
  constructor
  · intro k
    unfold effectiveNumLevels
    rw [if_pos hz, max_le_iff, ceilLog2Div1024_le_iff _ hx, ceilLog2Div1024_le_iff _ hy]
  · unfold getSources
    rw [hm]

/-- Witness for C3: `stackInfoAuto` has zoomLevels −1 and dimension
(4096, 2048, 10); the effective top level is 2 and exactly 3 levels come out. -/
theorem getSources_auto_zoom_levels_witness :
    stackInfoAuto.mirrors.get "5" = some mirror5 ∧ stackInfoAuto.zoomLevels < 0 ∧
    1 ≤ stackInfoAuto.dimension.x ∧ 1 ≤ stackInfoAuto.dimension.y ∧
    effectiveNumLevels stackInfoAuto = 2 ∧
    (List.range ((effectiveNumLevels stackInfoAuto + 1).toNat)).length = 3 ∧
    ((∀ k : Int, effectiveNumLevels stackInfoAuto ≤ k ↔
      ((stackInfoAuto.dimension.x : ℚ) / 1024 ≤ 2 ^ k ∧
       (stackInfoAuto.dimension.y : ℚ) / 1024 ≤ 2 ^ k)) ∧
     getSources ⟨"http://h", stackInfoAuto, "5"⟩ =
       .ok ((List.range ((effectiveNumLevels stackInfoAuto + 1).toNat)).map (fun level =>
         [mkLevelSource stackInfoAuto mirror5 level]))) :=
  ⟨by decide, by decide, by decide, by decide, by decide, by decide,
   getSources_auto_zoom_levels "http://h" stackInfoAuto "5" mirror5
     (by decide) (by decide) (by decide) (by decide)⟩

end Catmaid

namespace Catmaid

theorem insertByPosition_perm (m : StackMirror) (l : List StackMirror) :
    (insertByPosition m l).Perm (m :: l) := by
  induction l with
  | nil => simp [insertByPosition]
  | cons x xs ih =>
    unfold insertByPosition
    split
    · exact (ih.cons x).trans (List.Perm.swap m x xs)
    · exact List.Perm.refl _

theorem insertByPosition_sorted (m : StackMirror) (l : List StackMirror)
    (h : List.Sorted (fun a b => a.position ≤ b.position) l) :
    List.Sorted (fun a b => a.position ≤ b.position) (insertByPosition m l) := by
  induction l with
  | nil => simp [insertByPosition]
  | cons x xs ih =>
    rw [List.sorted_cons] at h
    obtain ⟨hx, hxs⟩ := h
    unfold insertByPosition
    split
    · rename_i hle
      rw [List.sorted_cons]
      refine ⟨?_, ih hxs⟩
      intro b hb
      rcases List.mem_cons.mp ((insertByPosition_perm m xs).mem_iff.mp hb) with rfl | hb2
      · exact hle
      · exact hx b hb2
    · rename_i hgt
      rw [List.sorted_cons]
      refine ⟨?_, by rw [List.sorted_cons]; exact ⟨hx, hxs⟩⟩
      intro b hb
      rcases List.mem_cons.mp hb with rfl | hb2
      · omega
      · have := hx b hb2
        omega

theorem sortByPosition_foldl_perm :
    ∀ (l acc : List StackMirror),
      (l.foldl (fun a m => insertByPosition m a) acc).Perm (acc ++ l) := by
  intro l
  induction l with
  | nil => simp
  | cons x xs ih =>
    intro acc
    have h1 : ((x :: xs).foldl (fun a m => insertByPosition m a) acc)
        = xs.foldl (fun a m => insertByPosition m a) (insertByPosition x acc) := rfl
    rw [h1]
    have h2 := ih (insertByPosition x acc)
    have h3 : (insertByPosition x acc ++ xs).Perm ((x :: acc) ++ xs) :=
      (insertByPosition_perm x acc).append_right xs
    have h4 : (acc ++ x :: xs).Perm (x :: (acc ++ xs)) := List.perm_middle
    exact h2.trans (h3.trans h4.symm)

theorem sortByPosition_foldl_sorted :
    ∀ (l acc : List StackMirror),
      List.Sorted (fun a b => a.position ≤ b.position) acc →
      List.Sorted (fun a b => a.position ≤ b.position)
        (l.foldl (fun a m => insertByPosition m a) acc) := by
  intro l
  induction l with
  | nil => intro acc h; exact h
  | cons x xs ih =>
    intro acc h
    exact ih _ (insertByPosition_sorted x acc h)

theorem sortByPosition_perm (l : List StackMirror) : (sortByPosition l).Perm l := by
  simpa using sortByPosition_foldl_perm l []

theorem sortByPosition_sorted (l : List StackMirror) :
    List.Sorted (fun a b => a.position ≤ b.position) (sortByPosition l) :=
  sortByPosition_foldl_sorted l [] (by simp)

/-- C8. `autoCompleteMirror` hands the prefix-matching utility the mirrors in
ascending `position` order — a reordering (permutation) of the map's values,
sorted by position, with [3, 1, 2] becoming [1, 2, 3] — while
`autoCompleteProject` and `autoCompleteStack` hand over the map's values in
insertion order: the projects map in insertion order [3, 1, 2] completes as
["3/", "1/", "2/"], and the looked-up project's stacks map in insertion order
[3, 1, 2] likewise completes as ["3/", "1/", "2/"]. -/
theorem completion_candidate_order :
    (∀ (mirrorIdPartial : String) (off : Nat) (m : JsMap StackMirror),
      autoCompleteMirror mirrorIdPartial off m =
        ⟨off, getPrefixMatchesWithDescriptions mirrorIdPartial (sortByPosition m.values)
          (fun x => toString x.id) (fun x => x.title)⟩ ∧
      List.Sorted (fun a b : StackMirror => a.position ≤ b.position)
        (sortByPosition m.values) ∧
      (sortByPosition m.values).Perm m.values) ∧
    (sortByPosition mirrors312.values).map (fun x => x.position) = [1, 2, 3] ∧
    (autoCompleteMirror "" 0 mirrors312).completions.map (fun c => c.value) =
      ["11", "12", "10"] ∧
    (∀ (projectIdPartial : String) (off : Nat) (pl : JsMap ProjectInfo),
      autoCompleteProject projectIdPartial off pl =
        ⟨off, getPrefixMatchesWithDescriptions projectIdPartial pl.values
          (fun x => toString x.id ++ "/") (fun x => x.title)⟩) ∧
    (autoCompleteProject "" 0 projects312).completions.map (fun c => c.value) =
      ["3/", "1/", "2/"] ∧
    (∀ (stackIdPartial projectId : String) (off : Nat) (pl : JsMap ProjectInfo)
      (pinfo : ProjectInfo), pl.get projectId = some pinfo →
      autoCompleteStack stackIdPartial projectId off pl =
        .ok ⟨off, getPrefixMatchesWithDescriptions stackIdPartial pinfo.«stacks».values
          (fun x => toString x.id ++ "/") (fun x => x.title ++ ": " ++ x.comment)⟩) ∧
    ((autoCompleteStack "" "1" 0 projectsS312).map
      (fun r => r.completions.map (fun c => c.value)) = .ok ["3/", "1/", "2/"]) := by
  refine ⟨fun p off m => ⟨rfl, sortByPosition_sorted m.values, sortByPosition_perm m.values⟩,
    by decide, by decide, fun p off pl => rfl, by decide,
    fun sp pid off pl pinfo h => by unfold autoCompleteStack; rw [h], rfl⟩

end Catmaid

namespace Catmaid

theorem isPrefixOfChars_iff (p s : List Char) :
    isPrefixOfChars p s = true ↔ ∃ t, s = p ++ t := by
  induction p generalizing s with
  | nil =>
    simp [isPrefixOfChars]
  | cons c cs ih =>
    cases s with
    | nil => simp [isPrefixOfChars]
    | cons d ds =>
      rw [show isPrefixOfChars (c :: cs) (d :: ds) = (c == d && isPrefixOfChars cs ds) from rfl,
        Bool.and_eq_true, beq_iff_eq, ih]
      constructor
      · rintro ⟨rfl, t, rfl⟩
        exact ⟨t, rfl⟩
      · rintro ⟨t, het⟩
        injection het with h1 h2
        exact ⟨h1.symm, t, h2⟩

theorem stripScheme_spec (url scheme rest : String)
    (h : stripScheme url = some (scheme, rest)) :
    (scheme = "http://" ∨ scheme = "https://") ∧ url = scheme ++ rest := by
  unfold stripScheme at h
  split at h
  · rename_i hpre
    injection h with h
    injection h with h1 h2
    subst h1
    subst h2
    refine ⟨Or.inl rfl, ?_⟩
    obtain ⟨t, ht⟩ := (isPrefixOfChars_iff _ _).mp hpre
    show url = "http://" ++ (⟨url.toList.drop 7⟩ : String)
    rw [show url = (⟨url.toList⟩ : String) from rfl, ht]
    rfl
  · split at h
    · rename_i hpre
      injection h with h
      injection h with h1 h2
      subst h1
      subst h2
      refine ⟨Or.inr rfl, ?_⟩
      obtain ⟨t, ht⟩ := (isPrefixOfChars_iff _ _).mp hpre
      show url = "https://" ++ (⟨url.toList.drop 8⟩ : String)
      rw [show url = (⟨url.toList⟩ : String) from rfl, ht]
      rfl
    · cases h

theorem stripScheme_http (rest : String) :
    stripScheme ("http://" ++ rest) = some ("http://", rest) := rfl

theorem stripScheme_https (rest : String) :
    stripScheme ("https://" ++ rest) = some ("https://", rest) := rfl

end Catmaid

namespace Catmaid

theorem drop_takeWhile_length (p : Char → Bool) (l : List Char) :
    l.drop (l.takeWhile p).length = l.dropWhile p := by
  nth_rewrite 2 [← List.takeWhile_append_dropWhile p l]
  exact List.drop_left ..

theorem splitAtLastSlash_some (l front c : List Char)
    (h : splitAtLastSlash l = some (front, c)) :
    l = front ++ '/' :: c ∧ '/' ∉ c := by
  unfold splitAtLastSlash at h
  dsimp only at h
  split at h
  · cases h
  · rename_i hlen
    injection h with h
    injection h with h1 h2
    have hnr : '/' ∉ l.reverse.takeWhile (fun ch => ch != '/') := by
      intro hmem
      have := List.mem_takeWhile_imp hmem
      simp at this
    have hdw : l.reverse.dropWhile (fun ch => ch != '/') ≠ [] := by
      intro hd
      apply hlen
      have hfull := List.takeWhile_append_dropWhile (fun ch => ch != '/') l.reverse
      rw [hd, List.append_nil] at hfull
      simp [hfull]
    obtain ⟨d, rest, hdr⟩ := List.exists_cons_of_ne_nil hdw
    have hdslash : d = '/' := by
      have hdp := List.head_dropWhile_not (fun ch => ch != '/') l.reverse (by rw [hdr]; simp)
      simp only [hdr, List.head_cons] at hdp
      simpa using hdp
    have hrev : l.reverse = l.reverse.takeWhile (fun ch => ch != '/') ++ '/' :: rest := by
      conv_lhs => rw [← List.takeWhile_append_dropWhile (fun ch => ch != '/') l.reverse]
      rw [hdr, hdslash]
    have hl : l = rest.reverse ++ '/' :: (l.reverse.takeWhile (fun ch => ch != '/')).reverse := by
      have := congrArg List.reverse hrev
      simpa [List.reverse_append] using this
    refine ⟨?_, ?_⟩
    · rw [← h1, ← h2]
      revert hl
      generalize List.takeWhile (fun ch => ch != '/') l.reverse = tw
      intro hl
      have hlen2 : l.length - tw.length - 1 = rest.reverse.length := by
        have hll := congrArg List.length hl
        simp only [List.length_append, List.length_cons, List.length_reverse] at hll
        simp only [List.length_reverse]
        omega
      rw [hlen2, hl, List.take_left]
    · rw [← h2]
      intro hmem
      exact hnr (List.mem_reverse.mp hmem)

theorem splitAtLastSlash_exists (l : List Char) (h : '/' ∈ l) :
    ∃ front c, splitAtLastSlash l = some (front, c) := by
  unfold splitAtLastSlash
  dsimp only
  split
  · rename_i hlen
    exfalso
    have hpre : l.reverse.takeWhile (fun ch => ch != '/') = l.reverse :=
      (List.takeWhile_prefix _).eq_of_length
        (by simp only [beq_iff_eq] at hlen; simpa using hlen)
    have : ('/' : Char) ∈ l.reverse := List.mem_reverse.mpr h
    rw [← hpre] at this
    have := List.mem_takeWhile_imp this
    simp at this
  · exact ⟨_, _, rfl⟩

end Catmaid

namespace Catmaid

theorem takeWhile_all_append (p : Char → Bool) (l1 : List Char) (x : Char) (l2 : List Char)
    (h1 : ∀ a ∈ l1, p a = true) (hx : p x = false) :
    (l1 ++ x :: l2).takeWhile p = l1 := by
  induction l1 with
  | nil => simp [List.takeWhile_cons, hx]
  | cons a as ih =>
    rw [List.cons_append, List.takeWhile_cons, h1 a (List.mem_cons_self a as)]
    simp only [if_true]
    rw [ih (fun b hb => h1 b (List.mem_cons_of_mem a hb))]

theorem strMkSlash (l1 l2 : List Char) :
    (⟨l1 ++ '/' :: l2⟩ : String) = (⟨l1⟩ : String) ++ "/" ++ (⟨l2⟩ : String) := by
  show String.mk (l1 ++ '/' :: l2) = String.mk ((l1 ++ ['/']) ++ l2)
  rw [List.append_assoc]
  rfl

theorem matchCompleterUrl_some (url base p : String)
    (h : matchCompleterUrl url = some (base, p)) : completerUrlShape url := by
  unfold matchCompleterUrl at h
  cases hss : stripScheme url with
  | none => rw [hss] at h; cases h
  | some pr =>
    obtain ⟨scheme, rest⟩ := pr
    rw [hss] at h
    dsimp only at h
    obtain ⟨hsch, hurl⟩ := stripScheme_spec url scheme rest hss
    split at h
    · rename_i tail heq
      split at h
      · cases h
      · rename_i hne
        simp only [Bool.or_eq_true, not_or, Bool.not_eq_true] at hne
        injection h with h
        injection h with hbase hp
        have hhost : ∀ a ∈ rest.toList.takeWhile (fun c => c != '/' && c != '?'),
            (a != '/' && a != '?') = true := by
          intro a ha
          exact List.mem_takeWhile_imp (p := fun c => c != '/' && c != '?') ha
        have hrest : rest.toList =
            rest.toList.takeWhile (fun c => c != '/' && c != '?') ++ '/' :: tail := by
          conv_lhs => rw [← List.takeWhile_append_dropWhile
            (fun c => c != '/' && c != '?') rest.toList]
          rw [← drop_takeWhile_length, heq]
        refine ⟨scheme, ⟨rest.toList.takeWhile (fun c => c != '/' && c != '?')⟩, p,
          hsch, ?_, ?_, ?_, ?_, ?_⟩
        · intro hempty
          have hnil : rest.toList.takeWhile (fun c => c != '/' && c != '?') = [] := by
            have := congrArg String.toList hempty
            simpa using this
          rw [hnil] at hne
          simp at hne
        · intro hs
          have hmem : ('/' : Char) ∈ rest.toList.takeWhile (fun c => c != '/' && c != '?') := by
            simpa using hs
          have := hhost _ hmem
          simp at this
        · intro hq
          have hmem : ('?' : Char) ∈ rest.toList.takeWhile (fun c => c != '/' && c != '?') := by
            simpa using hq
          have := hhost _ hmem
          simp at this
        · rw [← hp]
          exact hne.2
        · have hrs : rest =
              (⟨rest.toList.takeWhile (fun c => c != '/' && c != '?')⟩ : String) ++ "/" ++
                (⟨tail⟩ : String) := by
            rw [← strMkSlash]
            exact congrArg (fun l => (⟨l⟩ : String)) hrest
          conv_lhs => rw [hurl]
          rw [← hp]
          conv_lhs => rw [hrs]
          simp [String.append_assoc]
    · cases h

theorem matchCompleterUrl_of_shape (url : String) (h : completerUrlShape url) :
    ∃ pr, matchCompleterUrl url = some pr := by
  obtain ⟨scheme, host, p, hsch, hne, hslash, hq, hterm, hurl⟩ := h
  have hcs : ((host ++ "/" ++ p) : String).toList = host.toList ++ '/' :: p.toList := by
    show (host.toList ++ ['/']) ++ p.toList = _
    simp
  have hall : ∀ a ∈ host.toList, (a != '/' && a != '?') = true := by
    intro a ha
    have hs2 : a ≠ '/' := fun hb => hslash (by subst hb; simpa using ha)
    have hq2 : a ≠ '?' := fun hb => hq (by subst hb; simpa using ha)
    simp [hs2, hq2]
  have htw : ((host ++ "/" ++ p) : String).toList.takeWhile (fun c => c != '/' && c != '?')
      = host.toList := by
    rw [hcs]
    exact takeWhile_all_append _ _ _ _ hall (by decide)
  have hdrop : ((host ++ "/" ++ p) : String).toList.drop host.toList.length
      = '/' :: p.toList := by
    rw [hcs]
    exact List.drop_left ..
  have hemp : host.toList.isEmpty = false := by
    cases hht : host.toList with
    | nil =>
      exfalso
      apply hne
      have : host = (⟨host.toList⟩ : String) := rfl
      rw [this, hht]
    | cons a as => rfl
  subst hurl
  rcases hsch with rfl | rfl
  · refine ⟨("http://" ++ host, p), ?_⟩
    have hassoc : ("http://" ++ host ++ "/" ++ p) = ("http://" ++ (host ++ "/" ++ p)) := by
      simp [String.append_assoc]
    rw [hassoc]
    unfold matchCompleterUrl
    rw [stripScheme_http]
    dsimp only
    rw [htw, hdrop, hemp]
    show (if (false || p.toList.any isJsLineTerminator) = true then none
        else some ("http://" ++ host, p)) = some ("http://" ++ host, p)
    rw [hterm]
    rfl
  · refine ⟨("https://" ++ host, p), ?_⟩
    have hassoc : ("https://" ++ host ++ "/" ++ p) = ("https://" ++ (host ++ "/" ++ p)) := by
      simp [String.append_assoc]
    rw [hassoc]
    unfold matchCompleterUrl
    rw [stripScheme_https]
    dsimp only
    rw [htw, hdrop, hemp]
    show (if (false || p.toList.any isJsLineTerminator) = true then none
        else some ("https://" ++ host, p)) = some ("https://" ++ host, p)
    rw [hterm]
    rfl

theorem matchCompleterUrl_none_iff (url : String) :
    matchCompleterUrl url = none ↔ ¬ completerUrlShape url := by
  constructor
  · intro h hshape
    obtain ⟨pr, hpr⟩ := matchCompleterUrl_of_shape url hshape
    rw [h] at hpr
    cases hpr
  · intro h
    cases hm : matchCompleterUrl url with
    | none => rfl
    | some pr =>
      exact absurd (matchCompleterUrl_some url pr.1 pr.2 (by rw [hm])) h

/-- C10. A URL that does not have the shape `http(s)://host/…` — for example a
bare hostname with no trailing slash — makes `volumeCompleter` reject with the
bare value `null` (not an `Error`), and no metadata request is issued (the
request log is empty). -/
theorem volumeCompleter_null_rejection {E : Type} (f : Fetch E) (url : String) :
    (matchCompleterUrl url = none ↔ ¬ completerUrlShape url) ∧
    (matchCompleterUrl url = none →
      volumeCompleter f url = ([], .error .nullValue)) := by
  refine ⟨matchCompleterUrl_none_iff url, fun h => ?_⟩
  unfold volumeCompleter
  rw [h]

end Catmaid

namespace Catmaid

theorem getLastD_mem {α : Type} (l : List α) (d : α) (h : l ≠ []) : l.getLastD d ∈ l := by
  induction l generalizing d with
  | nil => exact absurd rfl h
  | cons a as ih =>
    rw [List.getLastD_cons]
    cases has : as with
    | nil =>
      subst has
      simp [List.getLastD]
    | cons b bs =>
      subst has
      exact List.mem_cons_of_mem _ (ih a (by simp))

theorem drop_append_cons {α : Type} (l1 : List α) (x : α) (l2 : List α) :
    (l1 ++ x :: l2).drop (l1.length + 1) = l2 := by
  have h1 : l1 ++ x :: l2 = (l1 ++ [x]) ++ l2 := by simp
  have h2 : l1.length + 1 = (l1 ++ [x]).length := by simp
  rw [h1, h2, List.drop_left]

theorem isEmpty_false_of_ne_nil {α : Type} (l : List α) (h : l ≠ []) :
    l.isEmpty = false := by
  cases l with
  | nil => exact absurd rfl h
  | cons a as => rfl

end Catmaid

namespace Catmaid

theorem matchVolumePath_some (path u a b c : String)
    (h : matchVolumePath path = some (u, a, b, c)) : volumePathShape path := by
  unfold matchVolumePath at h
  cases hss : stripScheme path with
  | none => rw [hss] at h; cases h
  | some pr =>
    obtain ⟨scheme, rest⟩ := pr
    rw [hss] at h
    dsimp only at h
    obtain ⟨hsch, hurl⟩ := stripScheme_spec path scheme rest hss
    split at h
    · cases h
    · rename_i i hempty
      split at h
      · cases h
      · rename_i front c1 hsp1
        split at h
        · cases h
        · rename_i fa fb hsp2
          injection h with h
          injection h with hu h
          injection h with ha h
          injection h with hb hc
          set cs := rest.toList with hcsdef
          set valid := (List.range cs.length).filter (fun i =>
            cs.getD i ' ' == '/' && decide (1 ≤ i) && !(List.take i cs).contains '?' &&
              decide (2 ≤ List.count '/' (List.drop (i + 1) cs)) &&
              !(List.drop (i + 1) cs).any isJsLineTerminator) with hvaliddef
          set i := valid.getLastD 0 with hidef
          have hvne : valid ≠ [] := by
            intro hv
            rw [hv] at hempty
            simp at hempty
          have hiv : i ∈ valid := getLastD_mem valid 0 hvne
          obtain ⟨hrange, hpred⟩ := List.mem_filter.mp hiv
          have hi : i < cs.length := List.mem_range.mp hrange
          simp only [Bool.and_eq_true, beq_iff_eq, Bool.not_eq_true',
            decide_eq_true_eq] at hpred
          obtain ⟨⟨⟨⟨hslash, h1le⟩, hnq⟩, hcount⟩, hterm⟩ := hpred
          have hci : cs[i] = '/' := by
            have h0 : cs.getD i ' ' = cs[i] := by
              rw [List.getD_eq_getElem?_getD, List.getElem?_eq_getElem hi]
              rfl
            rw [← h0]
            exact hslash
          obtain ⟨hdp, hnc1⟩ := splitAtLastSlash_some _ _ _ hsp1
          obtain ⟨hfr, hnfb⟩ := splitAtLastSlash_some _ _ _ hsp2
          have hterm2 := hterm
          rw [hdp, hfr] at hterm2
          simp only [List.any_append, List.any_cons, Bool.or_eq_false_iff,
            show isJsLineTerminator '/' = false from rfl, true_and] at hterm2
          refine ⟨scheme, ⟨cs.take i⟩, a, b, c, hsch, ?_, ?_, ?_, ?_, ?_, ?_⟩
          · intro hemp
            have h2 := congrArg String.toList hemp
            have h3 : cs.take i = [] := by simpa using h2
            rcases List.take_eq_nil_iff.mp h3 with h4 | h4
            · omega
            · rw [h4] at hi
              simp at hi
          · intro hcontains
            have hcb : (cs.take i).contains '?' = true := by simpa using hcontains
            rw [hnq] at hcb
            cases hcb
          · rw [← ha]
            exact hterm2.1.1
          · rw [← hb]
            exact hterm2.1.2
          · rw [← hc]
            exact hterm2.2
          · rw [hurl, ← ha, ← hb, ← hc]
            simp only [String.append_assoc]
            have hbig : (⟨cs.take i⟩ : String) ++ ("/" ++ ((⟨fa⟩ : String) ++ ("/" ++
                ((⟨fb⟩ : String) ++ ("/" ++ (⟨c1⟩ : String)))))) =
                (⟨cs.take i ++ '/' :: (fa ++ '/' :: (fb ++ '/' :: c1))⟩ : String) := rfl
            rw [hbig]
            have hfinal : cs = cs.take i ++ '/' :: (fa ++ '/' :: (fb ++ '/' :: c1)) := by
              conv_lhs => rw [← List.take_append_drop i cs]
              rw [List.drop_eq_getElem_cons hi, hci, hdp, hfr]
              simp
            exact congrArg (fun l => scheme ++ (⟨l⟩ : String)) hfinal

end Catmaid

namespace Catmaid

theorem matchVolumePath_of_shape (path : String) (h : volumePathShape path) :
    ∃ r, matchVolumePath path = some r := by
  obtain ⟨scheme, host, p, s, m, hsch, hne, hq, hpt, hst, hmt, hurl⟩ := h
  have hurl2 : path = scheme ++ (host ++ ("/" ++ (p ++ ("/" ++ (s ++ ("/" ++ m)))))) := by
    rw [hurl]
    simp [String.append_assoc]
  have hstrip : stripScheme path =
      some (scheme, host ++ ("/" ++ (p ++ ("/" ++ (s ++ ("/" ++ m)))))) := by
    rcases hsch with rfl | rfl
    · rw [hurl2]
      exact stripScheme_http _
    · rw [hurl2]
      exact stripScheme_https _
  unfold matchVolumePath
  rw [hstrip]
  dsimp only
  have hcs : (host ++ ("/" ++ (p ++ ("/" ++ (s ++ ("/" ++ m)))))).toList =
      host.toList ++ '/' :: (p.toList ++ '/' :: (s.toList ++ '/' :: m.toList)) := rfl
  rw [hcs]
  set L := host.toList ++ '/' :: (p.toList ++ '/' :: (s.toList ++ '/' :: m.toList)) with hL
  set valid := (List.range L.length).filter (fun i =>
    L.getD i ' ' == '/' && decide (1 ≤ i) && !(List.take i L).contains '?' &&
      decide (2 ≤ List.count '/' (List.drop (i + 1) L)) &&
      !(List.drop (i + 1) L).any isJsLineTerminator) with hv
  have hhne : host.toList ≠ [] := by
    intro hh
    apply hne
    rw [show host = (⟨host.toList⟩ : String) from rfl, hh]
  have h1le0 : 1 ≤ host.toList.length := by
    cases hht : host.toList with
    | nil => exact absurd hht hhne
    | cons a as => simp
  have hqfalse : host.toList.contains '?' = false := by
    cases hb : host.toList.contains '?' with
    | false => rfl
    | true => exact absurd hb hq
  have hmem0 : host.toList.length ∈ valid := by
    rw [hv]
    refine List.mem_filter.mpr ⟨List.mem_range.mpr ?_, ?_⟩
    · rw [hL]
      simp
    · have hgetd : L.getD host.toList.length ' ' = '/' := by
        rw [hL, getD_append_self]
        rfl
      have htake : L.take host.toList.length = host.toList := by
        rw [hL]
        exact List.take_left ..
      have hdropL : L.drop (host.toList.length + 1) =
          p.toList ++ '/' :: (s.toList ++ '/' :: m.toList) := by
        rw [hL]
        exact drop_append_cons ..
      rw [hgetd, htake, hdropL]
      simp only [beq_self_eq_true, Bool.true_and, hqfalse, Bool.not_false,
        Bool.and_eq_true, decide_eq_true_eq, List.count_append, List.count_cons,
        if_true, List.any_append, List.any_cons, hpt, hst, hmt,
        show isJsLineTerminator '/' = false from rfl, Bool.or_false, Bool.false_or,
        Bool.and_true, and_true]
      exact ⟨by simpa using h1le0, by omega⟩
  have hvne : valid ≠ [] := List.ne_nil_of_mem hmem0
  have hempty : valid.isEmpty = false := isEmpty_false_of_ne_nil valid hvne
  rw [hempty]
  dsimp only
  have hiv : valid.getLastD 0 ∈ valid := getLastD_mem valid 0 hvne
  obtain ⟨hrange, hpred⟩ := List.mem_filter.mp hiv
  simp only [Bool.and_eq_true, beq_iff_eq, Bool.not_eq_true',
    decide_eq_true_eq] at hpred
  obtain ⟨⟨⟨⟨hslash, h1le⟩, hnq⟩, hcount⟩, hterm⟩ := hpred
  have hmem1 := List.count_pos_iff.mp (Nat.lt_of_lt_of_le (by norm_num) hcount)
  obtain ⟨front, c1, hsp1⟩ := splitAtLastSlash_exists _ hmem1
  rw [hsp1]
  dsimp only
  obtain ⟨hdp, hnc1⟩ := splitAtLastSlash_some _ _ _ hsp1
  have hcfront : 1 ≤ front.count '/' := by
    have hc0 : c1.count '/' = 0 := List.count_eq_zero.mpr hnc1
    have hceq : List.count '/' (L.drop (valid.getLastD 0 + 1)) = front.count '/' + 1 := by
      rw [hdp]
      simp [List.count_append, List.count_cons, hc0]
    omega
  have hmem2 := List.count_pos_iff.mp (Nat.lt_of_lt_of_le (by norm_num) hcfront)
  obtain ⟨fa, fb, hsp2⟩ := splitAtLastSlash_exists _ hmem2
  rw [hsp2]
  exact ⟨_, rfl⟩

end Catmaid

namespace Catmaid

/-- C6. `getVolume` throws its invalid-path error exactly for the input paths
outside the grammar `http(s)://host/project/stack/mirror` (three trailing parts
after a non-empty host, where the host may absorb extra path segments); every
path of that shape proceeds to resolve without throwing at parse time. -/
theorem getVolume_invalid_path {E : Type} (f : Fetch E) (path : String) :
    ((∃ r, getVolume f path = .ok r) ↔ volumePathShape path) ∧
    (¬ volumePathShape path →
      getVolume f path = .error ("Invalid catmaid tile path " ++ jsonStringify path)) := by
  have hok : (∃ r, getVolume f path = .ok r) ↔ (∃ q, matchVolumePath path = some q) := by
    unfold getVolume
    cases hm : matchVolumePath path with
    | none => simp
    | some q =>
      obtain ⟨u2, a2, b2, c2⟩ := q
      dsimp only
      constructor
      · intro
        exact ⟨_, rfl⟩
      · intro
        exact ⟨_, rfl⟩
  constructor
  · rw [hok]
    constructor
    · rintro ⟨q, hq⟩
      obtain ⟨u2, a2, b2, c2⟩ := q
      exact matchVolumePath_some path u2 a2 b2 c2 hq
    · intro hs
      exact matchVolumePath_of_shape path hs
  · intro hns
    cases hm : matchVolumePath path with
    | none =>
      unfold getVolume
      rw [hm]
    | some q =>
      exfalso
      obtain ⟨u2, a2, b2, c2⟩ := q
      exact hns (matchVolumePath_some path u2 a2 b2 c2 hm)

end Catmaid

namespace Catmaid

/-- C9. `getVolume` never consults the projects list (its request log holds only
the one stack-info request) and never checks the mirror segment: whenever the
stack-info fetch succeeds, it resolves to a `MultiscaleTileSource` built from
the raw mirror segment even when that mirror is absent from the stack's mirrors
map, and the "Unable to find mirror" error surfaces only when `getSources` is
invoked on that source. -/
theorem getVolume_defers_mirror_check {E : Type} (f : Fetch E)
    (path url project stack mirror : String) (si : StackInfo)
    (hmatch : matchVolumePath path = some (url, project, stack, mirror))
    (hfetch : f.getStackInfo url (jsNumber project) (jsNumber stack) = .ok si) :
    getVolume f path =
      .ok ([.stackInfo url (jsNumber project) (jsNumber stack)],
           .ok { url := url, stackInfo := si, mirrorId := mirror }) ∧
    (si.mirrors.get mirror = none →
      getSources { url := url, stackInfo := si, mirrorId := mirror } =
        .error ("Unable to find mirror " ++ mirror ++ " for stack")) := by
  constructor
  · unfold getVolume
    rw [hmatch]
    dsimp only
    rw [hfetch]
  · intro habs
    unfold getSources
    rw [habs]

/-- Witness for C9: the stack fetched for `http://h/1/2/9` is `stackInfo0`,
whose mirrors map has no mirror "9"; the volume still resolves, and only
`getSources` fails. -/
theorem getVolume_defers_mirror_check_witness :
    matchVolumePath "http://h/1/2/9" = some ("http://h", "1", "2", "9") ∧
    sampleFetch.getStackInfo "http://h" (jsNumber "1") (jsNumber "2") = .ok stackInfo0 ∧
    stackInfo0.mirrors.get "9" = none ∧
    (getVolume sampleFetch "http://h/1/2/9" =
      .ok ([.stackInfo "http://h" (jsNumber "1") (jsNumber "2")],
           .ok { url := "http://h", stackInfo := stackInfo0, mirrorId := "9" }) ∧
     (stackInfo0.mirrors.get "9" = none →
      getSources { url := "http://h", stackInfo := stackInfo0, mirrorId := "9" } =
        .error ("Unable to find mirror " ++ "9" ++ " for stack"))) :=
  ⟨by decide, rfl, by decide,
   getVolume_defers_mirror_check sampleFetch "http://h/1/2/9" "http://h" "1" "2" "9"
     stackInfo0 (by decide) rfl⟩

end Catmaid

namespace Catmaid

theorem verifyInt_intCast (n : Int) : verifyInt (Json.num (n : ℚ)) = .ok n := by
  show (if ((n : ℚ)).den = 1 then Except.ok ((n : ℚ)).num else Except.error "Expected integer.")
      = .ok n
  rw [if_pos (Rat.den_intCast n), Rat.num_intCast]

theorem setEntries_fresh {α : Type} (entries : List (String × α)) (k : String) (v : α)
    (h : ∀ q ∈ entries, q.1 ≠ k) :
    JsMap.setEntries entries k v = entries ++ [(k, v)] := by
  induction entries with
  | nil => rfl
  | cons q qs ih =>
    unfold JsMap.setEntries
    have hq : (q.1 == k) = false := by
      cases hb : q.1 == k with
      | false => rfl
      | true => exact absurd (by simpa using hb) (h q (List.mem_cons_self q qs))
    rw [show ((q.1, q.2) : String × α) = q from rfl] at *
    simp only [hq]
    rw [ih (fun r hr => h r (List.mem_cons_of_mem q hr))]
    simp

theorem foldl_set_entries (l : List StackIdentifier) :
    ∀ (acc : JsMap StackIdentifier),
      (l.map (fun s => toString s.id)).Nodup →
      (∀ s ∈ l, ∀ q ∈ acc.entries, q.1 ≠ toString s.id) →
      (l.foldl (fun m s => m.set (toString s.id) s) acc).entries
        = acc.entries ++ l.map (fun s => (toString s.id, s)) := by
  induction l with
  | nil =>
    intro acc _ _
    simp
  | cons s ss ih =>
    intro acc hd hfresh
    rw [List.foldl_cons]
    have hset : (acc.set (toString s.id) s).entries = acc.entries ++ [(toString s.id, s)] :=
      setEntries_fresh acc.entries (toString s.id) s
        (fun q hq => hfresh s (List.mem_cons_self s ss) q hq)
    rw [List.map_cons, List.nodup_cons] at hd
    rw [ih (acc.set (toString s.id) s) hd.2 ?_]
    · rw [hset]
      simp
    · intro t ht q hq
      rw [hset] at hq
      rcases List.mem_append.mp hq with hq1 | hq2
      · exact hfresh t (List.mem_cons_of_mem s ht) q hq1
      · have hq3 : q = (toString s.id, s) := by simpa using hq2
        rw [hq3]
        intro hbad
        dsimp only at hbad
        exact hd.1 (by rw [hbad]; exact List.mem_map_of_mem _ ht)

end Catmaid

namespace Catmaid

theorem stacks_mapM (stackList : List (Int × String × String)) :
    List.mapM (fun stackDescObj => do
        let id ← verifyObjectProperty stackDescObj "id" verifyInt
        let title ← verifyObjectProperty stackDescObj "title" verifyString
        let comment ← verifyObjectProperty stackDescObj "comment" verifyString
        return ({ id := id, title := title, comment := comment } : StackIdentifier))
      (stackList.map (fun t =>
        Json.obj [("id", Json.num (t.1 : ℚ)), ("title", Json.str t.2.1),
                  ("comment", Json.str t.2.2)]))
      = .ok (stackList.map stackIdentOf) := by
  induction stackList with
  | nil => rfl
  | cons t ts ih =>
    rw [List.map_cons, List.mapM_cons]
    have e1 : verifyObjectProperty (Json.obj [("id", Json.num (t.1 : ℚ)),
        ("title", Json.str t.2.1), ("comment", Json.str t.2.2)]) "id" verifyInt
        = .ok t.1 := by
      show verifyInt (Json.num (t.1 : ℚ)) = .ok t.1
      exact verifyInt_intCast t.1
    have e2 : verifyObjectProperty (Json.obj [("id", Json.num (t.1 : ℚ)),
        ("title", Json.str t.2.1), ("comment", Json.str t.2.2)]) "title" verifyString
        = .ok t.2.1 := rfl
    have e3 : verifyObjectProperty (Json.obj [("id", Json.num (t.1 : ℚ)),
        ("title", Json.str t.2.1), ("comment", Json.str t.2.2)]) "comment" verifyString
        = .ok t.2.2 := rfl
    rw [e1, e2, e3, ih]
    rfl

end Catmaid


namespace Catmaid

theorem exceptBind_ok {ε α β : Type} (a : α) (f : α → Except ε β) :
    (Except.ok a : Except ε α) >>= f = f a := rfl

theorem exceptBind_pure {ε α β : Type} (a : α) (f : α → Except ε β) :
    (pure a : Except ε α) >>= f = f a := rfl

theorem parseProjectsList_singleton_aux (id : Int) (title : String)
    (stackList : List (Int × String × String))
    (hnd : (stackList.map (fun t => toString t.1)).Nodup) :
    parseProjectsList (Json.arr [projectJson id title stackList]) =
      .ok ⟨[(toString id,
        { id := id, title := title,
          «stacks» := ⟨stackList.map (fun t => (toString t.1, stackIdentOf t))⟩ })]⟩ := by
  have hfold : ((stackList.map stackIdentOf).foldl
      (fun m s => m.set (toString s.id) s) JsMap.empty).entries
      = stackList.map (fun t => (toString t.1, stackIdentOf t)) := by
    rw [foldl_set_entries (stackList.map stackIdentOf) JsMap.empty
      (by rw [List.map_map]; exact hnd) (by intro s hs q hq; cases hq)]
    rw [List.map_map]
    rfl
  have e1 : verifyObjectProperty (projectJson id title stackList) "id" verifyInt
      = Except.ok id := by
    show verifyInt (Json.num (id : ℚ)) = Except.ok id
    exact verifyInt_intCast id
  have e2 : verifyObjectProperty (projectJson id title stackList) "title" verifyString
      = Except.ok title := rfl
  have es : verifyObjectProperty (projectJson id title stackList) "stacks"
      (fun x => parseArray x (fun stackDescObj => do
        let id ← verifyObjectProperty stackDescObj "id" verifyInt
        let title ← verifyObjectProperty stackDescObj "title" verifyString
        let comment ← verifyObjectProperty stackDescObj "comment" verifyString
        return ({ id := id, title := title, comment := comment } : StackIdentifier)))
      = Except.ok (stackList.map stackIdentOf) := by
    show List.mapM (fun stackDescObj => do
        let id ← verifyObjectProperty stackDescObj "id" verifyInt
        let title ← verifyObjectProperty stackDescObj "title" verifyString
        let comment ← verifyObjectProperty stackDescObj "comment" verifyString
        return ({ id := id, title := title, comment := comment } : StackIdentifier))
      (stackList.map (fun t =>
        Json.obj [("id", Json.num (t.1 : ℚ)), ("title", Json.str t.2.1),
                  ("comment", Json.str t.2.2)])) = Except.ok (stackList.map stackIdentOf)
    exact stacks_mapM stackList
  unfold parseProjectsList
  rw [show parseArray (Json.arr [projectJson id title stackList]) verifyObject
      = Except.ok [projectJson id title stackList] from rfl]
  rw [exceptBind_ok]
  simp only [List.length_cons, List.length_nil, Nat.lt_irrefl, if_false, Nat.zero_add]
  rw [exceptBind_pure, List.forIn_cons, e1, exceptBind_ok, e2, exceptBind_ok, es,
    exceptBind_ok]
  simp only [List.forIn_nil, exceptBind_pure]
  rw [show (JsMap.empty.set (toString id)
      { id := id, title := title,
        «stacks» := (stackList.map stackIdentOf).foldl
          (fun m s => m.set (toString s.id) s) JsMap.empty } : JsMap ProjectInfo)
    = ⟨[(toString id,
      { id := id, title := title,
        «stacks» := (stackList.map stackIdentOf).foldl
          (fun m s => m.set (toString s.id) s) JsMap.empty })]⟩ from rfl]
  rw [show ((stackList.map stackIdentOf).foldl
      (fun m s => m.set (toString s.id) s) JsMap.empty : JsMap StackIdentifier)
    = ⟨((stackList.map stackIdentOf).foldl
      (fun m s => m.set (toString s.id) s) JsMap.empty).entries⟩ from rfl]
  rw [hfold]
  rfl

end Catmaid

namespace Catmaid

/-- C7. `parseProjectsList` fails with the "no projects" error on the empty
array, and succeeds on every well-formed singleton project list (well-formed
fields, distinct stack ids), returning a map keyed by the stringified project
id whose stacks map is keyed by the stringified stack ids. -/
theorem parseProjectsList_empty_and_singleton :
    parseProjectsList (Json.arr []) = .error "No projects found in projects list." ∧
    ∀ (id : Int) (title : String) (stackList : List (Int × String × String)),
      (stackList.map (fun t => toString t.1)).Nodup →
      parseProjectsList (Json.arr [projectJson id title stackList]) =
        .ok ⟨[(toString id,
          { id := id, title := title,
            «stacks» := ⟨stackList.map (fun t => (toString t.1, stackIdentOf t))⟩ })]⟩ :=
  ⟨rfl, fun id title stackList hnd => parseProjectsList_singleton_aux id title stackList hnd⟩

end Catmaid

namespace Catmaid

/-- C4 (modelled from the spec: the `memoize.getUncounted` cache is not among
the sources). Two concurrent identical `getStackInfo` requests — and likewise
`getProjectsList` requests with identical hostnames — issue exactly one
transport request and observe the same eventual outcome, success or failure; a
failure is not cached, so an identical request issued after the failure
re-issues the transport request and can then succeed. -/
theorem memoized_requests_coalesce_and_failures_not_cached
    {E : Type} (hostname : String) (projectId stackId : Int) (hostnames : List String)
    (v : StackInfo) (pl : JsMap ProjectInfo) (e : E) :
    ((runMemo [MemoEvent.request ⟨hostname, projectId, stackId⟩,
        MemoEvent.request ⟨hostname, projectId, stackId⟩,
        MemoEvent.settle ⟨hostname, projectId, stackId⟩ (Outcome.ok v)]
        : MemoRun StackInfoKey StackInfo E).transports = 1 ∧
      ∀ o ∈ (runMemo [MemoEvent.request ⟨hostname, projectId, stackId⟩,
          MemoEvent.request ⟨hostname, projectId, stackId⟩,
          MemoEvent.settle ⟨hostname, projectId, stackId⟩ (Outcome.ok v)]
          : MemoRun StackInfoKey StackInfo E).observations,
        o.eventual (runMemo [MemoEvent.request ⟨hostname, projectId, stackId⟩,
          MemoEvent.request ⟨hostname, projectId, stackId⟩,
          MemoEvent.settle ⟨hostname, projectId, stackId⟩ (Outcome.ok v)]
          : MemoRun StackInfoKey StackInfo E).settledGens = some (Outcome.ok v)) ∧
    ((runMemo [MemoEvent.request ⟨hostname, projectId, stackId⟩,
        MemoEvent.request ⟨hostname, projectId, stackId⟩,
        MemoEvent.settle ⟨hostname, projectId, stackId⟩ (Outcome.err e)]
        : MemoRun StackInfoKey StackInfo E).transports = 1 ∧
      ∀ o ∈ (runMemo [MemoEvent.request ⟨hostname, projectId, stackId⟩,
          MemoEvent.request ⟨hostname, projectId, stackId⟩,
          MemoEvent.settle ⟨hostname, projectId, stackId⟩ (Outcome.err e)]
          : MemoRun StackInfoKey StackInfo E).observations,
        o.eventual (runMemo [MemoEvent.request ⟨hostname, projectId, stackId⟩,
          MemoEvent.request ⟨hostname, projectId, stackId⟩,
          MemoEvent.settle ⟨hostname, projectId, stackId⟩ (Outcome.err e)]
          : MemoRun StackInfoKey StackInfo E).settledGens = some (Outcome.err e)) ∧
    ((runMemo [MemoEvent.request ⟨hostname, projectId, stackId⟩,
        MemoEvent.settle ⟨hostname, projectId, stackId⟩ (Outcome.err e),
        MemoEvent.request ⟨hostname, projectId, stackId⟩,
        MemoEvent.settle ⟨hostname, projectId, stackId⟩ (Outcome.ok v)]
        : MemoRun StackInfoKey StackInfo E).transports = 2 ∧
      (runMemo [MemoEvent.request ⟨hostname, projectId, stackId⟩,
        MemoEvent.settle ⟨hostname, projectId, stackId⟩ (Outcome.err e),
        MemoEvent.request ⟨hostname, projectId, stackId⟩,
        MemoEvent.settle ⟨hostname, projectId, stackId⟩ (Outcome.ok v)]
        : MemoRun StackInfoKey StackInfo E).observations
        = [Obs.attached 0, Obs.attached 1] ∧
      (runMemo [MemoEvent.request ⟨hostname, projectId, stackId⟩,
        MemoEvent.settle ⟨hostname, projectId, stackId⟩ (Outcome.err e),
        MemoEvent.request ⟨hostname, projectId, stackId⟩,
        MemoEvent.settle ⟨hostname, projectId, stackId⟩ (Outcome.ok v)]
        : MemoRun StackInfoKey StackInfo E).settledGens
        = [(0, Outcome.err e), (1, Outcome.ok v)]) ∧
    ((runMemo [MemoEvent.request ⟨hostnames⟩, MemoEvent.request ⟨hostnames⟩,
        MemoEvent.settle ⟨hostnames⟩ (Outcome.ok pl)]
        : MemoRun ProjectsListKey (JsMap ProjectInfo) E).transports = 1 ∧
      ∀ o ∈ (runMemo [MemoEvent.request ⟨hostnames⟩, MemoEvent.request ⟨hostnames⟩,
          MemoEvent.settle ⟨hostnames⟩ (Outcome.ok pl)]
          : MemoRun ProjectsListKey (JsMap ProjectInfo) E).observations,
        o.eventual (runMemo [MemoEvent.request ⟨hostnames⟩, MemoEvent.request ⟨hostnames⟩,
          MemoEvent.settle ⟨hostnames⟩ (Outcome.ok pl)]
          : MemoRun ProjectsListKey (JsMap ProjectInfo) E).settledGens
          = some (Outcome.ok pl)) ∧
    ((runMemo [MemoEvent.request ⟨hostnames⟩, MemoEvent.settle ⟨hostnames⟩ (Outcome.err e),
        MemoEvent.request ⟨hostnames⟩]
        : MemoRun ProjectsListKey (JsMap ProjectInfo) E).transports = 2) := by
  refine ⟨⟨?_, ?_⟩, ⟨?_, ?_⟩, ⟨?_, ?_, ?_⟩, ⟨?_, ?_⟩, ?_⟩ <;>
    simp [runMemo, runMemoFrom, MemoState.request, MemoState.settle, MemoState.empty,
      lookupKey, Obs.eventual]

end Catmaid
